import Mathlib

/-!
Verification of the coupon-mention-tracker core: a shallow embedding of
`services/coupon_matcher.py` and `services/report.py`.

Modelling conventions:
* Python `str` is modelled as Lean `String` / `List Char` (a Python string is a
  sequence of code points, as is `String.data`).
* `re`-module semantics are modelled for the ASCII range: `re.IGNORECASE`
  comparison is case folding of `A`-`Z` onto `a`-`z` (`lowerNat`), a word
  character (`\w`, used by `\b`) is `[A-Za-z0-9_]` (`isWordCharB`), and `\s`
  is Python's ASCII whitespace set (`isPySpace`).  The tracked texts and codes
  the program handles are ASCII, where these models agree with CPython.
* `dict` (including `defaultdict`) is an insertion-ordered association list;
  Python 3.7+ guarantees insertion order, which `updateAssoc` reproduces.
* `datetime.date` is modelled as `Nat` (dates compare linearly).
* The async repository calls of `generate_report` fetch its inputs; the fold
  itself is pure, so it is embedded as a function of the fetched data.
-/

/-- Case folding of a code point as performed by `re.IGNORECASE` on ASCII:
upper-case letters fold onto lower-case, everything else is itself. -/
def lowerNat (c : Char) : Nat :=
  if 65 ≤ c.toNat ∧ c.toNat ≤ 90 then c.toNat + 32 else c.toNat

/-- Word characters of the regex `\b` boundary: `[A-Za-z0-9_]` (ASCII model
of Python's `\w`). -/
def isWordCharB (c : Char) : Bool :=
  decide ((48 ≤ c.toNat ∧ c.toNat ≤ 57) ∨ (65 ≤ c.toNat ∧ c.toNat ≤ 90) ∨
    (97 ≤ c.toNat ∧ c.toNat ≤ 122) ∨ c.toNat = 95)

/-- ASCII letters, the characters matched by `[A-Z]` under `re.IGNORECASE`. -/
def isAsciiLetter (c : Char) : Bool :=
  decide ((65 ≤ c.toNat ∧ c.toNat ≤ 90) ∨ (97 ≤ c.toNat ∧ c.toNat ≤ 122))

/-- ASCII digits, the characters matched by `[0-9]`. -/
def isAsciiDigit (c : Char) : Bool :=
  decide (48 ≤ c.toNat ∧ c.toNat ≤ 57)

/-- ASCII alphanumerics, the characters matched by `[A-Z0-9]` under
`re.IGNORECASE`. -/
def isAsciiAlnum (c : Char) : Bool := isAsciiLetter c || isAsciiDigit c

/-- Python's whitespace set for `str.split`/`str.strip` and the regex `\s`,
restricted to ASCII. -/
def isPySpace (c : Char) : Bool :=
  c == ' ' || c == '\t' || c == '\n' || c == '\r' || c == '\x0b' || c == '\x0c'

/-- Whether position `i` of `t` holds a word character (`false` out of
bounds, matching how `\b` treats the ends of the subject string). -/
def wordAt (t : List Char) (i : Nat) : Bool :=
  match t.get? i with
  | some c => isWordCharB c
  | none => false

/-- The regex `\b` word-boundary test at position `i` of `t`: exactly one of
the two adjacent positions holds a word character. -/
def boundaryAt (t : List Char) (i : Nat) : Bool :=
  (decide (i ≠ 0) && wordAt t (i - 1)) != wordAt t i

/-- Python `str.strip()` on a list of code points. -/
def pyStripL (l : List Char) : List Char :=
  ((l.dropWhile isPySpace).reverse.dropWhile isPySpace).reverse

/-- Python `str.strip()`. -/
def pyStrip (s : String) : String := String.mk (pyStripL s.data)

/-- Python `str.upper()` (ASCII model, via `Char.toUpper`). -/
def pyUpper (s : String) : String := String.mk (s.data.map Char.toUpper)

/-- Accumulator-passing core of `pyWords`. -/
def wordsAux : List Char → List Char → List (List Char)
  | acc, [] => if acc.isEmpty then [] else [acc.reverse]
  | acc, c :: rest =>
    if isPySpace c then
      if acc.isEmpty then wordsAux [] rest else acc.reverse :: wordsAux [] rest
    else wordsAux (c :: acc) rest

/-- Python `str.split()` with no argument: maximal runs of non-whitespace,
empty pieces discarded. -/
def pyWords (l : List Char) : List (List Char) := wordsAux [] l

/-- Helper of `joinWords`: prepends one space before every word. -/
def joinWordsAux : List (List Char) → List Char
  | [] => []
  | w :: ws => ' ' :: (w ++ joinWordsAux ws)

/-- Python `" ".join(words)` on lists of code points. -/
def joinWords : List (List Char) → List Char
  | [] => []
  | w :: ws => w ++ joinWordsAux ws

/-- Ordered-dictionary lookup on an association list. -/
def lookupAssoc {α β : Type} [DecidableEq α] (k : α) : List (α × β) → Option β
  | [] => none
  | (k', v) :: rest => if k' = k then some v else lookupAssoc k rest

/-- Ordered-dictionary update on an association list: `d[k] = f(d.get(k,
dflt))` for a `defaultdict` — an existing key is updated in place, a missing
key is appended at the end, reproducing Python dict insertion order. -/
def updateAssoc {α β : Type} [DecidableEq α] (dflt : β) (k : α) (f : β → β) :
    List (α × β) → List (α × β)
  | [] => [(k, f dflt)]
  | (k', v) :: rest =>
    if k' = k then (k', f v) :: rest else (k', v) :: updateAssoc dflt k f rest

/-- Accumulator-passing core of `dedupFirst`. -/
def dedupFirstAux : List String → List String → List String
  | _, [] => []
  | seen, c :: rest =>
    if seen.contains c then dedupFirstAux seen rest
    else c :: dedupFirstAux (c :: seen) rest

/-- Deduplication keeping first occurrences: the key set and order of a
Python dict built by successive insertion. -/
def dedupFirst (l : List String) : List String := dedupFirstAux [] l

/-- Minimum of a list of dates, `none` on the empty list. -/
def minDate : List Nat → Option Nat
  | [] => none
  | d :: ds => some (ds.foldl min d)

/-- Maximum of a list of dates, `none` on the empty list. -/
def maxDate : List Nat → Option Nat
  | [] => none
  | d :: ds => some (ds.foldl max d)

/-- Code-point lexicographic strict order on lists of characters, the order
Python uses to compare strings. -/
def listLtB : List Char → List Char → Bool
  | [], [] => false
  | [], _ :: _ => true
  | _ :: _, [] => false
  | a :: as, b :: bs =>
    if a.toNat < b.toNat then true
    else if a.toNat = b.toNat then listLtB as bs else false

/-- Python string `<`. -/
def strLtB (a b : String) : Bool := listLtB a.data b.data

/-- Python string `<=` (total order: not `b < a`). -/
def strLeB (a b : String) : Bool := !(strLtB b a)

/-- Embedding of the dataclass `MatchResult` of `coupon_matcher.py`. -/
structure MatchResult where
  coupon_code : String
  start_pos : Nat
  end_pos : Nat
  context : String
deriving DecidableEq

/-- Embedding of the pydantic model `AIOverviewPrompt` (the fields the core
reads; `id`, `status`, `tags` and `created_at` are never used by the matcher
or the report fold). -/
structure AIOverviewPrompt where
  prompt_text : String
  primary_product : String
  location : Option String
deriving DecidableEq

/-- Embedding of the pydantic model `AIOverviewResult` (the fields the core
reads; `id` models `str(result.id)`, the key used for the sources map). -/
structure AIOverviewResult where
  id : String
  scraped_date : Nat
  response_text : Option String
deriving DecidableEq

/-- Embedding of the pydantic model `CouponMatch`. -/
structure CouponMatch where
  keyword : String
  location : Option String
  product : String
  scraped_date : Nat
  coupon_code : String
  match_context : String
  ai_overview_id : String
  source_urls_with_mentions : List String
  source_mention_unavailable : Bool
deriving DecidableEq

/-- Embedding of the pydantic model `WeeklyReportRow`. -/
structure WeeklyReportRow where
  keyword : String
  location : Option String
  product : String
  has_ai_overview : Bool
  coupon_detected : Option String
  is_valid_coupon : Option Bool
  first_seen : Option Nat
  last_seen : Option Nat
  mention_count : Nat
deriving DecidableEq

/-- Embedding of a source dict as consumed by `find_in_html_sources`:
`source.get("source_html_content", "")` is modelled by storing the string
directly, a missing key being the empty string. -/
structure SourceDict where
  source_url : String
  source_html_content : String
deriving DecidableEq

/-- Embedding of the `CouponMatcher` object state: `self._coupons` (the
normalized list, duplicates preserved) and `self._context_chars`.  The
`self._patterns` dict is not stored: its key list is `dedupFirst coupons`
and the pattern compiled for key `c` is fully determined by `c` (matching
is `matchesAt c.data`), so both are recomputed where used. -/
structure CouponMatcher where
  coupons : List String
  context_chars : Nat
deriving DecidableEq

/-- Embedding of `CouponMatcher.__init__`: each input code is stripped,
empty results discarded, survivors upper-cased. -/
def CouponMatcher.mk' (coupons : List String) (context_chars : Nat) : CouponMatcher :=
  { coupons := coupons.filterMap fun c =>
      if pyStrip c = "" then none else some (pyUpper (pyStrip c)),
    context_chars := context_chars }

/-- The key list of the `self._patterns` dict built by `_build_patterns`:
normalized codes in first-insertion order, later duplicates dropped. -/
def CouponMatcher.patternKeys (m : CouponMatcher) : List String :=
  dedupFirst m.coupons

/-- A match of the compiled pattern `\b<code>\b` (with `re.IGNORECASE`) at
position `i` of `t`: word boundaries on both sides and a case-folded
character-wise equality with the code. -/
def matchesAt (code t : List Char) (i : Nat) : Bool :=
  boundaryAt t i && boundaryAt t (i + code.length) &&
    decide (((t.drop i).take code.length).map lowerNat = code.map lowerNat)

/-- Selection of non-overlapping matches as `re.finditer` performs it: scan
the candidate start positions left to right, accept one only when it does
not overlap the previously accepted match, whose end is `minPos`. -/
def pickAux (L : Nat) : Nat → List Nat → List (Nat × Nat)
  | _, [] => []
  | minPos, s :: rest =>
    if s < minPos then pickAux L minPos rest
    else (s, s + L) :: pickAux L (s + L) rest

/-- All spans `(start, end)` produced by `pattern.finditer(text)` for the
pattern of `code`, in left-to-right order. -/
def matchSpans (code t : List Char) : List (Nat × Nat) :=
  pickAux code.length 0 ((List.range (t.length + 1)).filter (matchesAt code t))

/-- A successful `pattern.search(text)` for the pattern of `code`. -/
def searchB (code t : List Char) : Bool :=
  (List.range (t.length + 1)).any (matchesAt code t)

/-- Embedding of the static method `CouponMatcher._extract_context`. -/
def extractContext (text : List Char) (s e context_chars : Nat) : String :=
  let context_start := s - context_chars
  let context_end := min text.length (e + context_chars)
  let pre : List Char := if 0 < context_start then "...".data else []
  let suf : List Char := if context_end < text.length then "...".data else []
  let snippet := (text.drop context_start).take (context_end - context_start)
  let collapsed := joinWords (pyWords (pyStripL snippet))
  String.mk (pre ++ collapsed ++ suf)

/-- Embedding of `CouponMatcher.find_matches`. -/
def CouponMatcher.find_matches (m : CouponMatcher) (text : String) : List MatchResult :=
  if text = "" then []
  else
    m.patternKeys.flatMap fun coupon =>
      (matchSpans coupon.data text.data).map fun sp =>
        { coupon_code := coupon
          start_pos := sp.1
          end_pos := sp.2
          context := extractContext text.data sp.1 sp.2 m.context_chars }

/-- Embedding of `CouponMatcher.is_valid_coupon`. -/
def CouponMatcher.is_valid_coupon (m : CouponMatcher) (code : String) : Bool :=
  m.coupons.contains (pyUpper code)

/-- Embedding of `CouponMatcher.find_in_html_sources`: URLs of the sources
whose non-empty HTML content matches the compiled pattern of the (tracked)
code; the empty list when the code has no compiled pattern. -/
def CouponMatcher.find_in_html_sources (m : CouponMatcher) (sources : List SourceDict)
    (coupon_code : String) : List String :=
  if m.patternKeys.contains (pyUpper coupon_code) then
    (sources.filter fun src =>
        src.source_html_content ≠ "" &&
          searchB (pyUpper coupon_code).data src.source_html_content.data).map
      fun src => src.source_url
  else []

/-- Embedding of `CouponMatcher.analyze_result`. -/
def CouponMatcher.analyze_result (m : CouponMatcher) (prompt : AIOverviewPrompt)
    (result : AIOverviewResult) (sources_with_html : Option (List SourceDict)) :
    List CouponMatch :=
  match result.response_text with
  | none => []
  | some text =>
    if text = "" then []
    else
      let found := m.find_matches text
      let has_sources : Bool :=
        match sources_with_html with
        | none => false
        | some l => decide (0 < l.length)
      found.map fun mt =>
        { keyword := prompt.prompt_text
          location := prompt.location
          product := prompt.primary_product
          scraped_date := result.scraped_date
          coupon_code := mt.coupon_code
          match_context := mt.context
          ai_overview_id := result.id
          source_urls_with_mentions :=
            if has_sources then
              m.find_in_html_sources (sources_with_html.getD []) mt.coupon_code
            else []
          source_mention_unavailable := !has_sources }

/-- One step of the `re.findall` scan: at position `p`, try the pattern; on
success emit the span and resume at its end, otherwise advance one position.
The fuel argument bounds the number of steps (each consumes at least one
position, so `t.length + 1` suffices from position 0). -/
def scanAll (tryAt : Nat → Option Nat) (len : Nat) : Nat → Nat → List (Nat × Nat)
  | 0, _ => []
  | fuel + 1, p =>
    if p ≤ len then
      match tryAt p with
      | some e =>
        if p < e then (p, e) :: scanAll tryAt len fuel e
        else scanAll tryAt len fuel (p + 1)
      | none => scanAll tryAt len fuel (p + 1)
    else []

/-- The substring of `t` spanned by `(s, e)`. -/
def sliceStr (t : List Char) (sp : Nat × Nat) : String :=
  String.mk ((t.drop sp.1).take (sp.2 - sp.1))

/-- Attempted match of heuristic pattern `\b[A-Z]{2,}[0-9]{2,}\b` (with
`re.IGNORECASE`) at position `p`: with the greedy quantifiers and the final
`\b`, a match is a maximal letter run of length at least 2 followed by a
maximal digit run of length at least 2 ending at a word boundary. -/
def tryLettersDigits (t : List Char) (p : Nat) : Option Nat :=
  if boundaryAt t p then
    let l := ((t.drop p).takeWhile isAsciiLetter).length
    let d := ((t.drop (p + l)).takeWhile isAsciiDigit).length
    if 2 ≤ l ∧ 2 ≤ d ∧ boundaryAt t (p + l + d) then some (p + l + d) else none
  else none

/-- The suffix vocabulary of heuristic pattern (b). -/
def suffixVocab : List (List Char) :=
  ["OFF".data, "SAVE".data, "DEAL".data, "VPN".data, "PASS".data]

/-- Attempted match of heuristic pattern `\b[A-Z]{3,}(?:OFF|SAVE|DEAL|VPN|PASS)\b`
(with `re.IGNORECASE`) at position `p`: the whole match is a maximal letter
run ending at a word boundary whose last characters spell one of the
suffixes case-insensitively, preceded inside the run by at least 3 letters. -/
def tryLettersSuffix (t : List Char) (p : Nat) : Option Nat :=
  if boundaryAt t p then
    let l := ((t.drop p).takeWhile isAsciiLetter).length
    let run := (t.drop p).take l
    if boundaryAt t (p + l) ∧ suffixVocab.any (fun s =>
        decide (3 + s.length ≤ l) &&
          decide ((run.drop (l - s.length)).map lowerNat = s.map lowerNat)) then
      some (p + l)
    else none
  else none

/-- Attempted match of heuristic pattern `\b<w>[:\s]+[A-Z0-9]+\b` (with
`re.IGNORECASE`, `w` one of `coupon`, `code`, `promo`) at position `p`: the
literal word at a boundary, then a maximal non-empty run of colons and
whitespace, then a maximal non-empty alphanumeric run ending at a word
boundary. -/
def tryKeywordCode (w : List Char) (t : List Char) (p : Nat) : Option Nat :=
  if boundaryAt t p ∧ ((t.drop p).take w.length).map lowerNat = w.map lowerNat then
    let q := p + w.length
    let sep := ((t.drop q).takeWhile (fun c => c == ':' || isPySpace c)).length
    let al := ((t.drop (q + sep)).takeWhile isAsciiAlnum).length
    if 1 ≤ sep ∧ 1 ≤ al ∧ boundaryAt t (q + sep + al) then some (q + sep + al)
    else none
  else none

/-- The matches of one heuristic pattern over `t`, as strings, in scan
order (`re.findall` with a group-free pattern returns whole matches). -/
def findallStrings (tryAt : List Char → Nat → Option Nat) (t : List Char) : List String :=
  (scanAll (tryAt t) t.length (t.length + 1) 0).map (sliceStr t)

/-- Embedding of `CouponMatcher.find_any_coupon_pattern`.  The Python method
accumulates the upper-cased matches of the five heuristic patterns into a
`set` and returns `list(set)`; the set's iteration order is unspecified
(hash-dependent), modelled here as first-occurrence order over the
pattern-by-pattern concatenation.  Claims about this function only use
membership, which is faithful. -/
def find_any_coupon_pattern (text : String) : List String :=
  if text = "" then []
  else
    let t := text.data
    let raw :=
      findallStrings tryLettersDigits t ++
        findallStrings tryLettersSuffix t ++
          findallStrings (tryKeywordCode "coupon".data) t ++
            findallStrings (tryKeywordCode "code".data) t ++
              findallStrings (tryKeywordCode "promo".data) t
    dedupFirst (raw.map pyUpper)

/-- The per-coupon running state of a report bucket: `{"count": 0,
"first_seen": None, "last_seen": None}`. -/
structure CouponInfo where
  count : Nat
  first_seen : Option Nat
  last_seen : Option Nat
deriving DecidableEq

/-- The default per-coupon state of the inner `defaultdict`. -/
def defaultInfo : CouponInfo := { count := 0, first_seen := none, last_seen := none }

/-- Embedding of one iteration of the per-match loop body of
`generate_report`: increment the count and fold the scrape date into the
first/last-seen extremes. -/
def updInfo (d : Nat) (ci : CouponInfo) : CouponInfo :=
  { count := ci.count + 1
    first_seen :=
      match ci.first_seen with
      | none => some d
      | some f => if d < f then some d else some f
    last_seen :=
      match ci.last_seen with
      | none => some d
      | some l => if d > l then some d else some l }

/-- A report bucket: the value type of the outer `defaultdict` keyed by
`(prompt_text, location)`. -/
structure Bucket where
  has_ai_overview : Bool
  coupons : List (String × CouponInfo)
  product : String
  location : Option String
deriving DecidableEq

/-- The default bucket of the outer `defaultdict`. -/
def defaultBucket : Bucket :=
  { has_ai_overview := false, coupons := [], product := "", location := none }

/-- The bucket key of a `(prompt, result)` pair: `(prompt.prompt_text,
prompt.location)`. -/
def bucketKey (pr : AIOverviewPrompt × AIOverviewResult) : String × Option String :=
  (pr.1.prompt_text, pr.1.location)

/-- The coupon matches `generate_report` extracts from one `(prompt,
result)` pair: `analyze_result` with the sources fetched for that result id
(`dict.get` yields `none` when the id is absent). -/
def resultMatches (m : CouponMatcher) (srcs : List (String × List SourceDict))
    (pr : AIOverviewPrompt × AIOverviewResult) : List CouponMatch :=
  m.analyze_result pr.1 pr.2 (lookupAssoc pr.2.id srcs)

/-- Embedding of the per-result body of the fold loop of `generate_report`:
mark the bucket, overwrite product and location, and fold every match into
the per-coupon state using the result's scrape date. -/
def updBucket (m : CouponMatcher) (srcs : List (String × List SourceDict))
    (pr : AIOverviewPrompt × AIOverviewResult) (b : Bucket) : Bucket :=
  { has_ai_overview := true
    product := pr.1.primary_product
    location := pr.1.location
    coupons :=
      (resultMatches m srcs pr).foldl
        (fun cs mt => updateAssoc defaultInfo mt.coupon_code (updInfo pr.2.scraped_date) cs)
        b.coupons }

/-- One iteration of the outer loop of `generate_report` over the keyword
dict. -/
def stepKD (m : CouponMatcher) (srcs : List (String × List SourceDict))
    (kd : List ((String × Option String) × Bucket))
    (pr : AIOverviewPrompt × AIOverviewResult) :
    List ((String × Option String) × Bucket) :=
  updateAssoc defaultBucket (bucketKey pr) (updBucket m srcs pr) kd

/-- The rows emitted for one bucket: one row per detected coupon code, or a
single null-coupon row when the bucket saw no matches. -/
def bucketRows (m : CouponMatcher) (k : String × Option String) (b : Bucket) :
    List WeeklyReportRow :=
  if b.coupons = [] then
    [{ keyword := k.1
       location := k.2
       product := b.product
       has_ai_overview := b.has_ai_overview
       coupon_detected := none
       is_valid_coupon := none
       first_seen := none
       last_seen := none
       mention_count := 0 }]
  else
    b.coupons.map fun ci =>
      { keyword := k.1
        location := k.2
        product := b.product
        has_ai_overview := b.has_ai_overview
        coupon_detected := some ci.1
        is_valid_coupon := some (m.is_valid_coupon ci.1)
        first_seen := ci.2.first_seen
        last_seen := ci.2.last_seen
        mention_count := ci.2.count }

/-- The Python sort key of a report row: `(keyword, location or "",
coupon_detected is None, coupon_detected or "")`, with tuple comparison. -/
def rowLeB (r1 r2 : WeeklyReportRow) : Bool :=
  if r1.keyword ≠ r2.keyword then strLtB r1.keyword r2.keyword
  else if r1.location.getD "" ≠ r2.location.getD "" then
    strLtB (r1.location.getD "") (r2.location.getD "")
  else if r1.coupon_detected.isNone ≠ r2.coupon_detected.isNone then
    r1.coupon_detected.isNone < r2.coupon_detected.isNone
  else strLeB (r1.coupon_detected.getD "") (r2.coupon_detected.getD "")

/-- Embedding of `WeeklyReportGenerator.generate_report` as a function of
the fetched window (`results`, in repository order) and the batched sources
map (`srcs`).  Returns `(rows, all_matches)`.  `rows.sort(key=...)` is a
stable sort by the tuple key, which `List.insertionSort` with the total
comparator `rowLeB` reproduces. -/
def generate_report (m : CouponMatcher)
    (results : List (AIOverviewPrompt × AIOverviewResult))
    (srcs : List (String × List SourceDict)) :
    List WeeklyReportRow × List CouponMatch :=
  let kd := results.foldl (stepKD m srcs) []
  let all_matches := results.foldl (fun acc pr => acc ++ resultMatches m srcs pr) []
  let rows := kd.flatMap fun kb => bucketRows m kb.1 kb.2
  (List.insertionSort (fun a b => rowLeB a b = true) rows, all_matches)

/-- Embedding of `WeeklyReportGenerator.get_invalid_coupon_alerts` as a
function of the fetched window. -/
def get_invalid_coupon_alerts (m : CouponMatcher)
    (results : List (AIOverviewPrompt × AIOverviewResult)) : List CouponMatch :=
  results.flatMap fun pr =>
    match pr.2.response_text with
    | none => []
    | some text =>
      if text = "" then []
      else
        (find_any_coupon_pattern text).filterMap fun code =>
          if m.is_valid_coupon code then none
          else
            some
              { keyword := pr.1.prompt_text
                location := pr.1.location
                product := pr.1.primary_product
                scraped_date := pr.2.scraped_date
                coupon_code := code
                match_context := "[Untracked coupon pattern]"
                ai_overview_id := pr.2.id
                source_urls_with_mentions := []
                source_mention_unavailable := false }

/-! ### Generic lemmas: association lists, deduplication, span picking -/

theorem lookupAssoc_updateAssoc {α β : Type} [DecidableEq α] (dflt : β) (k k' : α)
    (f : β → β) (l : List (α × β)) :
    lookupAssoc k' (updateAssoc dflt k f l) =
      if k = k' then some (f ((lookupAssoc k' l).getD dflt)) else lookupAssoc k' l := by
  induction l with
  | nil =>
    by_cases h : k = k' <;> simp [updateAssoc, lookupAssoc, h]
  | cons hd tl ih =>
    obtain ⟨k0, v0⟩ := hd
    by_cases h0 : k0 = k
    · subst h0
      by_cases h : k0 = k' <;> simp [updateAssoc, lookupAssoc, h]
    · by_cases h : k0 = k'
      · subst h
        have hkk : ¬ k = k0 := fun hh => h0 hh.symm
        simp [updateAssoc, if_neg h0, lookupAssoc, hkk]
      · simp [updateAssoc, if_neg h0, lookupAssoc, h, ih]

theorem mem_updateAssoc {α β : Type} [DecidableEq α] (dflt : β) (k : α) (f : β → β)
    (l : List (α × β)) (p : α × β) :
    p ∈ updateAssoc dflt k f l → (∃ v, p = (k, f v)) ∨ p ∈ l := by
  induction l with
  | nil =>
    intro hp
    simp only [updateAssoc, List.mem_singleton] at hp
    exact Or.inl ⟨dflt, hp⟩
  | cons hd tl ih =>
    intro hp
    obtain ⟨k0, v0⟩ := hd
    by_cases h0 : k0 = k
    · subst h0
      simp only [updateAssoc, if_pos rfl, if_true, List.mem_cons] at hp
      rcases hp with hp | hp
      · exact Or.inl ⟨v0, hp⟩
      · exact Or.inr (List.mem_cons_of_mem _ hp)
    · simp only [updateAssoc, if_neg h0, List.mem_cons] at hp
      rcases hp with hp | hp
      · exact Or.inr (hp ▸ List.mem_cons_self _ _)
      · rcases ih hp with h | h
        · exact Or.inl h
        · exact Or.inr (List.mem_cons_of_mem _ h)

theorem keys_updateAssoc {α β : Type} [DecidableEq α] (dflt : β) (k : α) (f : β → β)
    (l : List (α × β)) :
    (updateAssoc dflt k f l).map Prod.fst =
      if k ∈ l.map Prod.fst then l.map Prod.fst else l.map Prod.fst ++ [k] := by
  induction l with
  | nil => simp [updateAssoc]
  | cons hd tl ih =>
    obtain ⟨k0, v0⟩ := hd
    by_cases h0 : k0 = k
    · subst h0
      simp [updateAssoc]
    · have hne : ¬ k = k0 := fun h => h0 h.symm
      by_cases hk : k ∈ tl.map Prod.fst
      · simp [updateAssoc, if_neg h0, ih, hk, hne]
      · simp [updateAssoc, if_neg h0, ih, hk, hne]

theorem keysNodup_updateAssoc {α β : Type} [DecidableEq α] (dflt : β) (k : α) (f : β → β)
    (l : List (α × β)) (h : (l.map Prod.fst).Nodup) :
    ((updateAssoc dflt k f l).map Prod.fst).Nodup := by
  rw [keys_updateAssoc]
  by_cases hk : k ∈ l.map Prod.fst
  · simpa [hk] using h
  · simp only [if_neg hk]
    refine List.Nodup.append h (List.nodup_singleton k) ?_
    simpa [List.disjoint_singleton] using hk

theorem lookupAssoc_eq_some_of_mem {α β : Type} [DecidableEq α] (l : List (α × β))
    (p : α × β) :
    (l.map Prod.fst).Nodup → p ∈ l → lookupAssoc p.1 l = some p.2 := by
  induction l with
  | nil =>
    intro _ hp
    cases hp
  | cons hd tl ih =>
    intro hnd hp
    obtain ⟨k0, v0⟩ := hd
    rw [List.map_cons] at hnd
    have hnd' := List.nodup_cons.mp hnd
    rcases List.mem_cons.mp hp with hp | hp
    · subst hp
      simp [lookupAssoc]
    · have hk : ¬ k0 = p.1 := by
        intro h
        have hm : p.1 ∈ List.map Prod.fst tl := List.mem_map.mpr ⟨p, hp, rfl⟩
        rw [← h] at hm
        exact hnd'.1 hm
      simp only [lookupAssoc, if_neg hk]
      exact ih hnd'.2 hp

theorem dedupFirstAux_mem (l : List String) (a : String) :
    ∀ seen, a ∈ dedupFirstAux seen l ↔ a ∈ l ∧ a ∉ seen := by
  induction l with
  | nil =>
    intro seen
    simp [dedupFirstAux]
  | cons c rest ih =>
    intro seen
    by_cases hc : seen.contains c
    · rw [dedupFirstAux, if_pos hc, ih seen]
      constructor
      · rintro ⟨h1, h2⟩
        exact ⟨List.mem_cons_of_mem _ h1, h2⟩
      · rintro ⟨h1, h2⟩
        rcases List.mem_cons.mp h1 with h | h
        · subst h
          exact absurd (List.elem_iff.mp hc) h2
        · exact ⟨h, h2⟩
    · rw [dedupFirstAux, if_neg hc]
      have hcseen : c ∉ seen := fun hs => hc (List.elem_iff.mpr hs)
      constructor
      · intro h
        rcases List.mem_cons.mp h with h | h
        · subst h
          exact ⟨List.mem_cons_self _ _, hcseen⟩
        · rcases (ih (c :: seen)).mp h with ⟨h1, h2⟩
          exact ⟨List.mem_cons_of_mem _ h1, fun hs => h2 (List.mem_cons_of_mem _ hs)⟩
      · rintro ⟨h1, h2⟩
        by_cases hac : a = c
        · subst hac
          exact List.mem_cons_self _ _
        · rcases List.mem_cons.mp h1 with h | h
          · exact absurd h hac
          · refine List.mem_cons_of_mem _ ((ih (c :: seen)).mpr ⟨h, fun hs => ?_⟩)
            rcases List.mem_cons.mp hs with h' | h'
            · exact hac h'
            · exact h2 h'

theorem dedupFirst_mem (l : List String) (a : String) : a ∈ dedupFirst l ↔ a ∈ l := by
  rw [dedupFirst, dedupFirstAux_mem]
  simp

theorem pickAux_mem (L : Nat) (l : List Nat) (sp : Nat × Nat) :
    ∀ minPos, sp ∈ pickAux L minPos l → sp.1 ∈ l ∧ sp.2 = sp.1 + L := by
  induction l with
  | nil =>
    intro minPos hsp
    cases hsp
  | cons s rest ih =>
    intro minPos hsp
    by_cases hs : s < minPos
    · rw [pickAux, if_pos hs] at hsp
      rcases ih _ hsp with ⟨h1, h2⟩
      exact ⟨List.mem_cons_of_mem _ h1, h2⟩
    · rw [pickAux, if_neg hs] at hsp
      rcases List.mem_cons.mp hsp with h | h
      · rw [h]
        exact ⟨List.mem_cons_self _ _, rfl⟩
      · rcases ih _ h with ⟨h1, h2⟩
        exact ⟨List.mem_cons_of_mem _ h1, h2⟩

theorem pickAux_zero_ne_nil (L : Nat) (s : Nat) (rest : List Nat) :
    pickAux L 0 (s :: rest) ≠ [] := by
  rw [pickAux, if_neg (Nat.not_lt_zero s)]
  exact List.cons_ne_nil _ _

/-! ### Word-boundary matching lemmas -/

/-- A whole-word case-insensitive occurrence of `code` in `t`: some position
matches the compiled `\b<code>\b` pattern. -/
def hasWordOccurrence (code t : List Char) : Prop := ∃ i, matchesAt code t i = true

theorem contains_iff_mem (l : List String) (x : String) : l.contains x = true ↔ x ∈ l :=
  List.elem_iff

theorem wordAt_eq_false (t : List Char) {i : Nat} (h : t.length ≤ i) :
    wordAt t i = false := by
  rw [wordAt, List.get?_eq_none.mpr h]

theorem boundaryAt_eq_false_of_gt (t : List Char) {i : Nat} (h : t.length < i) :
    boundaryAt t i = false := by
  have h1 : wordAt t i = false := wordAt_eq_false t (Nat.le_of_lt h)
  have h2 : wordAt t (i - 1) = false := wordAt_eq_false t (by omega)
  simp [boundaryAt, h1, h2]

theorem matchesAt_nil (code : List Char) (i : Nat) : matchesAt code [] i = false := by
  have h1 : wordAt [] i = false := wordAt_eq_false [] (Nat.zero_le i)
  have h2 : wordAt [] (i - 1) = false := wordAt_eq_false [] (Nat.zero_le _)
  simp [matchesAt, boundaryAt, h1, h2]

theorem searchB_nil (code : List Char) : searchB code [] = false := by
  simp [searchB, matchesAt_nil]

theorem matchesAt_eq_false_of_gt (code t : List Char) {i : Nat} (h : t.length < i) :
    matchesAt code t i = false := by
  simp [matchesAt, boundaryAt_eq_false_of_gt t h]

theorem searchB_iff (code t : List Char) :
    searchB code t = true ↔ hasWordOccurrence code t := by
  rw [searchB, List.any_eq_true]
  constructor
  · rintro ⟨i, _, hm⟩
    exact ⟨i, hm⟩
  · rintro ⟨i, hm⟩
    refine ⟨i, List.mem_range.mpr ?_, hm⟩
    by_contra hi
    rw [matchesAt_eq_false_of_gt code t (by omega)] at hm
    cases hm

instance hasWordOccurrenceDec (code t : List Char) : Decidable (hasWordOccurrence code t) :=
  decidable_of_iff (searchB code t = true) (searchB_iff code t)

theorem patternKeys_contains (m : CouponMatcher) (x : String) :
    m.patternKeys.contains x = m.coupons.contains x := by
  by_cases h : x ∈ m.coupons
  · have h1 : m.patternKeys.contains x = true :=
      (contains_iff_mem _ _).mpr ((dedupFirst_mem _ _).mpr h)
    have h2 : m.coupons.contains x = true := (contains_iff_mem _ _).mpr h
    rw [h1, h2]
  · have h1 : m.patternKeys.contains x = false := by
      cases hc : m.patternKeys.contains x with
      | false => rfl
      | true => exact absurd ((dedupFirst_mem _ _).mp ((contains_iff_mem _ _).mp hc)) h
    have h2 : m.coupons.contains x = false := by
      cases hc : m.coupons.contains x with
      | false => rfl
      | true => exact absurd ((contains_iff_mem _ _).mp hc) h
    rw [h1, h2]

/-! ### Claim C8 -/

/-- C8: every degenerate input — empty or absent response text, an empty
tracked-coupon list, an empty result window, empty text for the heuristic
detector — produces an empty output list; all embedded functions are total,
so no error is possible. -/
theorem claim_C8_degenerate_inputs :
    (∀ m : CouponMatcher, m.find_matches "" = []) ∧
    (∀ (cc : Nat) (text : String), (CouponMatcher.mk' [] cc).find_matches text = []) ∧
    (∀ (m : CouponMatcher) (p : AIOverviewPrompt) (rid : String) (d : Nat)
        (s : Option (List SourceDict)),
      m.analyze_result p { id := rid, scraped_date := d, response_text := none } s = [] ∧
      m.analyze_result p { id := rid, scraped_date := d, response_text := some "" } s = []) ∧
    (∀ (m : CouponMatcher) (srcs : List (String × List SourceDict)),
      generate_report m [] srcs = ([], [])) ∧
    (∀ m : CouponMatcher, get_invalid_coupon_alerts m [] = []) ∧
    find_any_coupon_pattern "" = [] := by
  refine ⟨fun m => ?_, fun cc text => ?_, fun m p rid d s => ⟨rfl, rfl⟩, fun m srcs => rfl,
    fun m => rfl, rfl⟩
  · simp [CouponMatcher.find_matches]
  · by_cases h : text = "" <;>
      simp [CouponMatcher.find_matches, CouponMatcher.mk', CouponMatcher.patternKeys,
        dedupFirst, dedupFirstAux, h]

/-! ### Claim C10 -/

/-- C10: for every CouponMatch from `analyze_result`, the
`source_mention_unavailable` flag is set exactly when the sources argument
was absent or empty; a set flag comes with an empty URL list; and a
non-empty sources list none of whose bodies contains the code yields a
cleared flag together with an empty URL list. -/
theorem claim_C10_source_flags (m : CouponMatcher) (p : AIOverviewPrompt)
    (rid : String) (d : Nat) (rtext : Option String)
    (s : Option (List SourceDict)) (cm : CouponMatch)
    (hmem : cm ∈ m.analyze_result p { id := rid, scraped_date := d, response_text := rtext } s) :
    (cm.source_mention_unavailable = true ↔ s = none ∨ s = some []) ∧
    (cm.source_mention_unavailable = true → cm.source_urls_with_mentions = []) ∧
    (∀ l, s = some l → l ≠ [] →
      (∀ src ∈ l, ¬ hasWordOccurrence (pyUpper cm.coupon_code).data
        src.source_html_content.data) →
      cm.source_mention_unavailable = false ∧ cm.source_urls_with_mentions = []) := by
  rcases rtext with _ | text
  · simp only [CouponMatcher.analyze_result] at hmem
    cases hmem
  · simp only [CouponMatcher.analyze_result] at hmem
    by_cases ht : text = ""
    · rw [if_pos ht] at hmem
      cases hmem
    · rw [if_neg ht] at hmem
      rcases List.mem_map.mp hmem with ⟨mt, _, hcm⟩
      subst hcm
      rcases s with _ | l
      · refine ⟨by simp, fun _ => by simp, ?_⟩
        intro l hl
        cases hl
      · rcases l with _ | ⟨src0, ls⟩
        · refine ⟨by simp, fun _ => by simp, ?_⟩
          intro l hl hne
          cases hl
          exact absurd rfl hne
        · refine ⟨by simp, by simp, ?_⟩
          intro l hl _ hno
          cases hl
          refine ⟨by simp, ?_⟩
          simp only [Option.getD_some]
          rw [if_pos (show decide (0 < (src0 :: ls).length) = true by simp)]
          rw [CouponMatcher.find_in_html_sources]
          by_cases hk : m.patternKeys.contains (pyUpper mt.coupon_code) = true
          · rw [if_pos hk]
            have hfil : ∀ src ∈ src0 :: ls,
                ((src.source_html_content ≠ "" : Bool) &&
                  searchB (pyUpper mt.coupon_code).data src.source_html_content.data) = false := by
              intro src hsrc
              cases hs : searchB (pyUpper mt.coupon_code).data src.source_html_content.data with
              | false => simp
              | true => exact absurd ((searchB_iff _ _).mp hs) (by simpa using hno src hsrc)
            rw [List.filter_eq_nil_iff.mpr ?_]
            · rfl
            · intro src hsrc
              rw [hfil src hsrc]
              simp
          · rw [if_neg hk]

/-! ### Claim C7 -/

/-- C7: every alert emitted by `get_invalid_coupon_alerts` carries the fixed
placeholder context string, is a heuristic-detector hit of some scanned
result text, fails `is_valid_coupon`, and its upper-cased code is not in the
tracked list. -/
theorem claim_C7_invalid_alerts (m : CouponMatcher)
    (results : List (AIOverviewPrompt × AIOverviewResult)) (cm : CouponMatch)
    (hmem : cm ∈ get_invalid_coupon_alerts m results) :
    cm.match_context = "[Untracked coupon pattern]" ∧
    m.is_valid_coupon cm.coupon_code = false ∧
    pyUpper cm.coupon_code ∉ m.coupons ∧
    ∃ pr ∈ results, ∃ text, pr.2.response_text = some text ∧
      cm.coupon_code ∈ find_any_coupon_pattern text := by
  rw [get_invalid_coupon_alerts] at hmem
  rcases List.mem_flatMap.mp hmem with ⟨pr, hpr, hcm⟩
  rcases hpr2 : pr.2.response_text with _ | text
  · simp only [hpr2] at hcm
    cases hcm
  · simp only [hpr2] at hcm
    by_cases ht : text = ""
    · rw [if_pos ht] at hcm
      cases hcm
    · rw [if_neg ht] at hcm
      rcases List.mem_filterMap.mp hcm with ⟨code, hcode, heq⟩
      by_cases hv : m.is_valid_coupon code = true
      · rw [if_pos hv] at heq
        cases heq
      · rw [if_neg hv] at heq
        injection heq with heq2
        subst heq2
        have hvf : m.is_valid_coupon code = false := by
          cases hq : m.is_valid_coupon code with
          | false => rfl
          | true => exact absurd hq hv
        refine ⟨rfl, hvf, ?_, pr, hpr, text, hpr2, hcode⟩
        intro hin
        exact hv ((contains_iff_mem _ _).mpr hin)

/-! ### Claim C5 -/

/-- C5: `find_in_html_sources` returns exactly the URLs of the sources whose
HTML body has a whole-word case-insensitive occurrence of the (upper-cased)
code, in source order; for a code missing from the tracked list it returns
the empty list whatever the sources are. -/
theorem claim_C5_html_cross_reference (m : CouponMatcher) (sources : List SourceDict)
    (code : String) :
    (m.coupons.contains (pyUpper code) = false →
      m.find_in_html_sources sources code = []) ∧
    (m.coupons.contains (pyUpper code) = true →
      m.find_in_html_sources sources code =
        (sources.filter fun src =>
          decide (hasWordOccurrence (pyUpper code).data src.source_html_content.data)).map
          fun src => src.source_url) := by
  constructor
  · intro h
    have hk : ¬ (m.patternKeys.contains (pyUpper code) = true) := by
      rw [patternKeys_contains, h]
      simp
    rw [CouponMatcher.find_in_html_sources, if_neg hk]
  · intro h
    have hk : m.patternKeys.contains (pyUpper code) = true := by
      rw [patternKeys_contains]
      exact h
    rw [CouponMatcher.find_in_html_sources, if_pos hk]
    congr 1
    apply List.filter_congr
    intro src _
    by_cases hw : hasWordOccurrence (pyUpper code).data src.source_html_content.data
    · have hs := (searchB_iff (pyUpper code).data src.source_html_content.data).mpr hw
      have hne : src.source_html_content ≠ "" := by
        intro h0
        rw [h0] at hs
        have hdata : ("" : String).data = [] := rfl
        rw [hdata, searchB_nil] at hs
        cases hs
      simp [hne, hs, hw]
    · have hs : searchB (pyUpper code).data src.source_html_content.data = false := by
        cases hq : searchB (pyUpper code).data src.source_html_content.data with
        | false => rfl
        | true => exact absurd ((searchB_iff _ _).mp hq) hw
      simp [hs, hw]

/-! ### Concrete inputs used by the witnesses -/

/-- Witness matcher: tracks the single code `save10`. -/
def wMatcher : CouponMatcher := CouponMatcher.mk' ["save10"] 100

/-- Witness prompt. -/
def wPrompt : AIOverviewPrompt :=
  { prompt_text := "nordvpn coupon", primary_product := "nordvpn", location := some "US" }

/-- Witness result whose text mentions the tracked code. -/
def wResult : AIOverviewResult :=
  { id := "r1", scraped_date := 1, response_text := some "Use SAVE10 today" }

/-- Witness source whose HTML mentions the tracked code. -/
def wSrcYes : SourceDict := { source_url := "u1", source_html_content := "get save10 now" }

/-- Witness source whose HTML does not mention the tracked code. -/
def wSrcNo : SourceDict := { source_url := "u2", source_html_content := "nothing here" }

/-- The CouponMatch `analyze_result` produces on `wPrompt`/`wResult` with
the single non-matching source `wSrcNo`. -/
def wCm : CouponMatch :=
  { keyword := "nordvpn coupon", location := some "US", product := "nordvpn", scraped_date := 1,
    coupon_code := "SAVE10", match_context := "Use SAVE10 today", ai_overview_id := "r1",
    source_urls_with_mentions := [], source_mention_unavailable := false }

theorem claim_C10_source_flags_witness :
    wCm.source_mention_unavailable = false ∧ wCm.source_urls_with_mentions = [] :=
  (claim_C10_source_flags wMatcher wPrompt "r1" 1 (some "Use SAVE10 today") (some [wSrcNo])
      wCm (by decide)).2.2 [wSrcNo] rfl (by decide)
    (by
      intro src hsrc hw
      rw [List.mem_singleton] at hsrc
      subst hsrc
      have hs := (searchB_iff (pyUpper wCm.coupon_code).data
        wSrcNo.source_html_content.data).mpr hw
      revert hs
      decide)

/-- Witness result whose text triggers the heuristic detector. -/
def wResultHeur : AIOverviewResult :=
  { id := "r4", scraped_date := 3, response_text := some "use code: WELCOME50 now" }

/-- The first alert `get_invalid_coupon_alerts` emits on `wResultHeur`. -/
def wAlert : CouponMatch :=
  { keyword := "nordvpn coupon", location := some "US", product := "nordvpn", scraped_date := 3,
    coupon_code := "WELCOME50", match_context := "[Untracked coupon pattern]",
    ai_overview_id := "r4", source_urls_with_mentions := [], source_mention_unavailable := false }

theorem claim_C7_invalid_alerts_witness :
    wAlert.match_context = "[Untracked coupon pattern]" ∧
    wMatcher.is_valid_coupon wAlert.coupon_code = false ∧
    pyUpper wAlert.coupon_code ∉ wMatcher.coupons ∧
    ∃ pr ∈ [(wPrompt, wResultHeur)], ∃ text, pr.2.response_text = some text ∧
      wAlert.coupon_code ∈ find_any_coupon_pattern text :=
  claim_C7_invalid_alerts wMatcher [(wPrompt, wResultHeur)] wAlert (by decide)

theorem claim_C5_html_cross_reference_witness :
    wMatcher.find_in_html_sources [wSrcYes, wSrcNo] "OTHER" = [] ∧
    wMatcher.find_in_html_sources [wSrcYes, wSrcNo] "save10" =
      (([wSrcYes, wSrcNo].filter fun src =>
        decide (hasWordOccurrence (pyUpper "save10").data src.source_html_content.data)).map
        fun src => src.source_url) :=
  ⟨(claim_C5_html_cross_reference wMatcher [wSrcYes, wSrcNo] "OTHER").1 (by decide),
    (claim_C5_html_cross_reference wMatcher [wSrcYes, wSrcNo] "save10").2 (by decide)⟩

/-! ### Characterization of the report fold -/

/-- The results of the window that land in the bucket keyed `k`. -/
def bucketResults (results : List (AIOverviewPrompt × AIOverviewResult))
    (k : String × Option String) : List (AIOverviewPrompt × AIOverviewResult) :=
  results.filter fun pr => decide (bucketKey pr = k)

theorem lookup_foldl_stepKD (m : CouponMatcher) (srcs : List (String × List SourceDict))
    (rs : List (AIOverviewPrompt × AIOverviewResult)) (k : String × Option String) :
    ∀ kd0, lookupAssoc k (rs.foldl (stepKD m srcs) kd0) =
      if bucketResults rs k = [] then lookupAssoc k kd0
      else some ((bucketResults rs k).foldl (fun b pr => updBucket m srcs pr b)
        ((lookupAssoc k kd0).getD defaultBucket)) := by
  induction rs with
  | nil =>
    intro kd0
    simp [bucketResults]
  | cons pr rest ih =>
    intro kd0
    rw [List.foldl_cons, ih (stepKD m srcs kd0 pr)]
    by_cases hk : bucketKey pr = k
    · have hfil : bucketResults (pr :: rest) k = pr :: bucketResults rest k := by
        simp [bucketResults, List.filter_cons, hk]
      have hlook : lookupAssoc k (stepKD m srcs kd0 pr) =
          some (updBucket m srcs pr ((lookupAssoc k kd0).getD defaultBucket)) := by
        rw [stepKD, lookupAssoc_updateAssoc, if_pos hk]
      rw [hfil]
      by_cases hrest : bucketResults rest k = []
      · rw [if_pos hrest, hlook, if_neg (List.cons_ne_nil _ _), hrest]
        simp
      · rw [if_neg hrest, if_neg (List.cons_ne_nil _ _), hlook]
        simp [List.foldl_cons]
    · have hfil : bucketResults (pr :: rest) k = bucketResults rest k := by
        simp [bucketResults, List.filter_cons, hk]
      have hlook : lookupAssoc k (stepKD m srcs kd0 pr) = lookupAssoc k kd0 := by
        rw [stepKD, lookupAssoc_updateAssoc, if_neg hk]
      rw [hfil, hlook]

theorem keysNodup_foldl_stepKD (m : CouponMatcher) (srcs : List (String × List SourceDict))
    (rs : List (AIOverviewPrompt × AIOverviewResult)) :
    ∀ kd0, ((kd0 : List ((String × Option String) × Bucket)).map Prod.fst).Nodup →
      ((rs.foldl (stepKD m srcs) kd0).map Prod.fst).Nodup := by
  induction rs with
  | nil =>
    intro kd0 h
    exact h
  | cons pr rest ih =>
    intro kd0 h
    exact ih _ (keysNodup_updateAssoc _ _ _ _ h)

theorem has_overview_foldl_stepKD (m : CouponMatcher) (srcs : List (String × List SourceDict))
    (rs : List (AIOverviewPrompt × AIOverviewResult)) :
    ∀ kd0, (∀ p ∈ (kd0 : List ((String × Option String) × Bucket)), p.2.has_ai_overview = true) →
      ∀ p ∈ rs.foldl (stepKD m srcs) kd0, p.2.has_ai_overview = true := by
  induction rs with
  | nil =>
    intro kd0 h
    exact h
  | cons pr rest ih =>
    intro kd0 h
    refine ih _ ?_
    intro p hp
    rcases mem_updateAssoc _ _ _ _ _ hp with ⟨v, hv⟩ | hv
    · rw [hv]
      rfl
    · exact h p hv

theorem mem_of_lookupAssoc_eq_some {α β : Type} [DecidableEq α] (l : List (α × β))
    (k : α) (v : β) : lookupAssoc k l = some v → (k, v) ∈ l := by
  induction l with
  | nil =>
    intro h
    cases h
  | cons hd tl ih =>
    intro h
    obtain ⟨k0, v0⟩ := hd
    by_cases hk : k0 = k
    · subst hk
      rw [lookupAssoc, if_pos rfl] at h
      injection h with h
      subst h
      exact List.mem_cons_self _ _
    · rw [lookupAssoc, if_neg hk] at h
      exact List.mem_cons_of_mem _ (ih h)

/-- Every row of a bucket carries the bucket's key and overview flag. -/
theorem bucketRows_fields (m : CouponMatcher) (k : String × Option String) (b : Bucket)
    (row : WeeklyReportRow) (hrow : row ∈ bucketRows m k b) :
    row.keyword = k.1 ∧ row.location = k.2 ∧ row.has_ai_overview = b.has_ai_overview := by
  rw [bucketRows] at hrow
  by_cases hc : b.coupons = []
  · rw [if_pos hc] at hrow
    rw [List.mem_singleton] at hrow
    subst hrow
    exact ⟨rfl, rfl, rfl⟩
  · rw [if_neg hc] at hrow
    rcases List.mem_map.mp hrow with ⟨ci, _, hr⟩
    subst hr
    exact ⟨rfl, rfl, rfl⟩

/-! ### Claim C9 -/

/-- C9: every emitted report row has `has_ai_overview = true` — a bucket is
created only when a fetched result exists for its key, and the loop body
immediately marks it. -/
theorem claim_C9_always_has_overview (m : CouponMatcher)
    (results : List (AIOverviewPrompt × AIOverviewResult))
    (srcs : List (String × List SourceDict)) (row : WeeklyReportRow)
    (hmem : row ∈ (generate_report m results srcs).1) :
    row.has_ai_overview = true := by
  simp only [generate_report] at hmem
  rw [(List.perm_insertionSort _ _).mem_iff] at hmem
  rcases List.mem_flatMap.mp hmem with ⟨kb, hkb, hrow⟩
  have hb := has_overview_foldl_stepKD m srcs results [] (by intro p hp; cases hp) kb hkb
  rcases bucketRows_fields m kb.1 kb.2 row hrow with ⟨_, _, h3⟩
  rw [h3, hb]

/-- The report row `generate_report` produces from `wPrompt`/`wResult`. -/
def wRow : WeeklyReportRow :=
  { keyword := "nordvpn coupon", location := some "US", product := "nordvpn",
    has_ai_overview := true, coupon_detected := some "SAVE10", is_valid_coupon := some true,
    first_seen := some 1, last_seen := some 1, mention_count := 1 }

theorem claim_C9_always_has_overview_witness :
    wRow.has_ai_overview = true :=
  claim_C9_always_has_overview wMatcher [(wPrompt, wResult)] [] wRow (by decide)

/-! ### Claim C4 -/

theorem countP_bucketRows_ne (m : CouponMatcher) (k k' : String × Option String)
    (b : Bucket) (hne : k' ≠ k) :
    ((bucketRows m k' b).countP fun row =>
      decide (row.keyword = k.1 ∧ row.location = k.2 ∧ row.coupon_detected = none)) = 0 := by
  rw [List.countP_eq_zero]
  intro row hrow
  rcases bucketRows_fields m k' b row hrow with ⟨h1, h2, _⟩
  simp only [decide_eq_true_eq, not_and]
  intro hk1 hk2
  exact absurd (Prod.ext (h1 ▸ hk1) (h2 ▸ hk2)) hne

theorem countP_bucketRows_self_nil (m : CouponMatcher) (k : String × Option String)
    (b : Bucket) (hb : b.coupons = []) :
    ((bucketRows m k b).countP fun row =>
      decide (row.keyword = k.1 ∧ row.location = k.2 ∧ row.coupon_detected = none)) = 1 := by
  rw [bucketRows, if_pos hb]
  simp [List.countP_cons]

theorem count_null_rows (m : CouponMatcher) (kd : List ((String × Option String) × Bucket))
    (k : String × Option String) (b : Bucket) :
    (kd.map Prod.fst).Nodup → (k, b) ∈ kd → b.coupons = [] →
    ((kd.flatMap fun kb => bucketRows m kb.1 kb.2).countP fun row =>
      decide (row.keyword = k.1 ∧ row.location = k.2 ∧ row.coupon_detected = none)) = 1 := by
  induction kd with
  | nil =>
    intro _ hmem _
    cases hmem
  | cons hd rest ih =>
    intro hnd hmem hb
    obtain ⟨k0, b0⟩ := hd
    rw [List.map_cons] at hnd
    have hnd' := List.nodup_cons.mp hnd
    rw [List.flatMap_cons, List.countP_append]
    rcases List.mem_cons.mp hmem with hmem | hmem
    · injection hmem with hk hbv
      subst hk
      subst hbv
      rw [countP_bucketRows_self_nil m k b hb]
      have hrest : ((rest.flatMap fun kb => bucketRows m kb.1 kb.2).countP fun row =>
          decide (row.keyword = k.1 ∧ row.location = k.2 ∧ row.coupon_detected = none)) = 0 := by
        rw [List.countP_eq_zero]
        intro row hrow
        rcases List.mem_flatMap.mp hrow with ⟨kb, hkb, hrow2⟩
        have hne : kb.1 ≠ k := by
          intro h
          apply hnd'.1
          rw [← h]
          exact List.mem_map.mpr ⟨kb, hkb, rfl⟩
        have h0 := countP_bucketRows_ne m k kb.1 kb.2 hne
        rw [List.countP_eq_zero] at h0
        exact h0 row hrow2
      rw [hrest]
    · have hk0 : k0 ≠ k := by
        intro h
        apply hnd'.1
        rw [h]
        exact List.mem_map.mpr ⟨(k, b), hmem, rfl⟩
      rw [countP_bucketRows_ne m k k0 b0 hk0, ih hnd'.2 hmem hb]

theorem coupons_foldl_empty (m : CouponMatcher) (srcs : List (String × List SourceDict))
    (hits : List (AIOverviewPrompt × AIOverviewResult))
    (h : ∀ pr ∈ hits, resultMatches m srcs pr = []) :
    ∀ b0 : Bucket, b0.coupons = [] →
      (hits.foldl (fun b pr => updBucket m srcs pr b) b0).coupons = [] := by
  induction hits with
  | nil =>
    intro b0 hb0
    exact hb0
  | cons pr rest ih =>
    intro b0 hb0
    rw [List.foldl_cons]
    refine ih (fun q hq => h q (List.mem_cons_of_mem _ hq)) _ ?_
    rw [updBucket, h pr (List.mem_cons_self _ _)]
    exact hb0

/-- C4: a report row with no detected coupon has null validity, null
first/last-seen and a zero mention count; and a bucket that exists in the
window but whose results produced no coupon matches yields exactly one such
null-coupon row. -/
theorem claim_C4_null_coupon_rows (m : CouponMatcher)
    (results : List (AIOverviewPrompt × AIOverviewResult))
    (srcs : List (String × List SourceDict)) :
    (∀ row ∈ (generate_report m results srcs).1, row.coupon_detected = none →
      row.is_valid_coupon = none ∧ row.first_seen = none ∧ row.last_seen = none ∧
        row.mention_count = 0) ∧
    (∀ k : String × Option String, (∃ pr ∈ results, bucketKey pr = k) →
      (∀ pr ∈ results, bucketKey pr = k → resultMatches m srcs pr = []) →
      ((generate_report m results srcs).1.countP fun row =>
        decide (row.keyword = k.1 ∧ row.location = k.2 ∧ row.coupon_detected = none)) = 1) := by
  constructor
  · intro row hmem hnone
    simp only [generate_report] at hmem
    rw [(List.perm_insertionSort _ _).mem_iff] at hmem
    rcases List.mem_flatMap.mp hmem with ⟨kb, _, hrow⟩
    rw [bucketRows] at hrow
    by_cases hc : kb.2.coupons = []
    · rw [if_pos hc, List.mem_singleton] at hrow
      subst hrow
      exact ⟨rfl, rfl, rfl, rfl⟩
    · rw [if_neg hc] at hrow
      rcases List.mem_map.mp hrow with ⟨ci, _, hr⟩
      subst hr
      cases hnone
  · intro k hex hnomatch
    rcases hex with ⟨pr0, hpr0, hk0⟩
    have hhit : pr0 ∈ bucketResults results k := by
      rw [bucketResults, List.mem_filter]
      exact ⟨hpr0, by simp [hk0]⟩
    have hne : bucketResults results k ≠ [] := List.ne_nil_of_mem hhit
    have hlook := lookup_foldl_stepKD m srcs results k []
    rw [if_neg hne] at hlook
    have hsub : ∀ pr ∈ bucketResults results k, resultMatches m srcs pr = [] := by
      intro pr hpr
      rw [bucketResults, List.mem_filter] at hpr
      exact hnomatch pr hpr.1 (by simpa using hpr.2)
    have hcoup := coupons_foldl_empty m srcs (bucketResults results k) hsub
      ((lookupAssoc k ([] : List ((String × Option String) × Bucket))).getD defaultBucket) rfl
    have hmemkd := mem_of_lookupAssoc_eq_some _ k _ hlook
    have hnd := keysNodup_foldl_stepKD m srcs results [] (by simp)
    simp only [generate_report]
    rw [(List.perm_insertionSort _ _).countP_eq]
    exact count_null_rows m _ k _ hnd hmemkd hcoup

/-- Witness prompt with no coupon in its result text. -/
def wPromptB : AIOverviewPrompt :=
  { prompt_text := "nordpass pricing", primary_product := "nordpass", location := none }

/-- Witness result without any tracked coupon. -/
def wResultB : AIOverviewResult :=
  { id := "r3", scraped_date := 2, response_text := some "No coupons here" }

theorem claim_C4_null_coupon_rows_witness :
    ((generate_report wMatcher [(wPrompt, wResult), (wPromptB, wResultB)] []).1.countP
      fun row => decide (row.keyword = ("nordpass pricing", (none : Option String)).1 ∧
        row.location = ("nordpass pricing", (none : Option String)).2 ∧
        row.coupon_detected = none)) = 1 :=
  (claim_C4_null_coupon_rows wMatcher [(wPrompt, wResult), (wPromptB, wResultB)] []).2
    ("nordpass pricing", none) (by decide) (by decide)

/-! ### Per-coupon aggregation state -/

/-- Folding one more scrape date into an optional running minimum. -/
def mergeMin : Option Nat → Nat → Nat
  | none, d => d
  | some f, d => min f d

/-- Folding one more scrape date into an optional running maximum. -/
def mergeMax : Option Nat → Nat → Nat
  | none, d => d
  | some l, d => max l d

/-- Applying the per-match update `updInfo d` of `generate_report` `n` times
to an optional per-coupon state (the inner `defaultdict` supplies
`defaultInfo` on first access). -/
def applyN (d : Nat) : Nat → Option CouponInfo → Option CouponInfo
  | 0, oi => oi
  | n + 1, oi => applyN d n (some (updInfo d (oi.getD defaultInfo)))

/-- The number of matches of code `c` a `(prompt, result)` pair contributes. -/
def nMatchesC (m : CouponMatcher) (srcs : List (String × List SourceDict)) (c : String)
    (pr : AIOverviewPrompt × AIOverviewResult) : Nat :=
  ((resultMatches m srcs pr).filter fun mt => decide (mt.coupon_code = c)).length

theorem updInfo_count (d : Nat) (x : CouponInfo) : (updInfo d x).count = x.count + 1 := rfl

theorem updInfo_first (d : Nat) (x : CouponInfo) :
    (updInfo d x).first_seen = some (mergeMin x.first_seen d) := by
  cases hx : x.first_seen with
  | none => simp [updInfo, mergeMin, hx]
  | some f =>
    simp only [updInfo, mergeMin, hx]
    split_ifs with h
    · exact congrArg some (by omega)
    · exact congrArg some (by omega)

theorem updInfo_last (d : Nat) (x : CouponInfo) :
    (updInfo d x).last_seen = some (mergeMax x.last_seen d) := by
  cases hx : x.last_seen with
  | none => simp [updInfo, mergeMax, hx]
  | some l =>
    simp only [updInfo, mergeMax, hx]
    split_ifs with h
    · exact congrArg some (by omega)
    · exact congrArg some (by omega)

theorem mergeMin_absorb (x : Option Nat) (d : Nat) : min (mergeMin x d) d = mergeMin x d := by
  cases x <;> simp [mergeMin]

theorem mergeMax_absorb (x : Option Nat) (d : Nat) : max (mergeMax x d) d = mergeMax x d := by
  cases x <;> simp [mergeMax]

theorem applyN_pos (d : Nat) :
    ∀ n, 1 ≤ n → ∀ oi, applyN d n oi =
      some { count := (oi.getD defaultInfo).count + n
             first_seen := some (mergeMin (oi.getD defaultInfo).first_seen d)
             last_seen := some (mergeMax (oi.getD defaultInfo).last_seen d) } := by
  intro n
  induction n with
  | zero =>
    intro h
    cases h
  | succ n ih =>
    intro _ oi
    rcases Nat.eq_zero_or_pos n with hn | hn
    · subst hn
      show some (updInfo d (oi.getD defaultInfo)) = _
      have hc := updInfo_count d (oi.getD defaultInfo)
      have hf := updInfo_first d (oi.getD defaultInfo)
      have hl := updInfo_last d (oi.getD defaultInfo)
      cases hu : updInfo d (oi.getD defaultInfo)
      rw [hu] at hc hf hl
      simp only at hc hf hl
      rw [hc, hf, hl]
    · rw [applyN, ih hn]
      have hc := updInfo_count d (oi.getD defaultInfo)
      have hf := updInfo_first d (oi.getD defaultInfo)
      have hl := updInfo_last d (oi.getD defaultInfo)
      simp only [Option.getD_some, hc, hf, hl]
      have h1 : (oi.getD defaultInfo).count + 1 + n = (oi.getD defaultInfo).count + (n + 1) := by
        omega
      have h2 : mergeMin (some (mergeMin (oi.getD defaultInfo).first_seen d)) d
          = mergeMin (oi.getD defaultInfo).first_seen d := by
        show min (mergeMin (oi.getD defaultInfo).first_seen d) d = _
        exact mergeMin_absorb _ _
      have h3 : mergeMax (some (mergeMax (oi.getD defaultInfo).last_seen d)) d
          = mergeMax (oi.getD defaultInfo).last_seen d := by
        show max (mergeMax (oi.getD defaultInfo).last_seen d) d = _
        exact mergeMax_absorb _ _
      rw [h1, h2, h3]

theorem lookup_foldl_matches (c : String) (d : Nat) (ms : List CouponMatch) :
    ∀ cs, lookupAssoc c
        (ms.foldl (fun cs2 mt => updateAssoc defaultInfo mt.coupon_code (updInfo d) cs2) cs)
      = applyN d ((ms.filter fun mt => decide (mt.coupon_code = c)).length) (lookupAssoc c cs) := by
  induction ms with
  | nil =>
    intro cs
    simp [applyN]
  | cons mt rest ih =>
    intro cs
    rw [List.foldl_cons, ih, List.filter_cons]
    by_cases hmt : mt.coupon_code = c
    · rw [if_pos (by simp [hmt]), List.length_cons]
      rw [lookupAssoc_updateAssoc, if_pos hmt]
      rfl
    · rw [if_neg (by simp [hmt])]
      rw [lookupAssoc_updateAssoc, if_neg hmt]

theorem lookup_coupons_foldl_updBucket (m : CouponMatcher)
    (srcs : List (String × List SourceDict)) (c : String)
    (hits : List (AIOverviewPrompt × AIOverviewResult)) :
    ∀ b0 : Bucket,
      lookupAssoc c ((hits.foldl (fun b pr => updBucket m srcs pr b) b0).coupons)
        = hits.foldl (fun oi pr => applyN pr.2.scraped_date (nMatchesC m srcs c pr) oi)
            (lookupAssoc c b0.coupons) := by
  induction hits with
  | nil =>
    intro b0
    rfl
  | cons pr rest ih =>
    intro b0
    rw [List.foldl_cons, List.foldl_cons, ih]
    congr 1
    rw [updBucket]
    exact lookup_foldl_matches c pr.2.scraped_date (resultMatches m srcs pr) b0.coupons

/-- The per-coupon state determined by a total match count and the date list
of the results that contained the code. -/
def stateOf (tc : Nat) (ds : List Nat) : Option CouponInfo :=
  if tc = 0 then none
  else some { count := tc, first_seen := minDate ds, last_seen := maxDate ds }

theorem minDate_append_singleton (ds : List Nat) (d : Nat) :
    minDate (ds ++ [d]) = some (mergeMin (minDate ds) d) := by
  cases ds with
  | nil => simp [minDate, mergeMin]
  | cons a t => simp [minDate, mergeMin, List.foldl_append]

theorem maxDate_append_singleton (ds : List Nat) (d : Nat) :
    maxDate (ds ++ [d]) = some (mergeMax (maxDate ds) d) := by
  cases ds with
  | nil => simp [maxDate, mergeMax]
  | cons a t => simp [maxDate, mergeMax, List.foldl_append]

theorem stateOf_eq_none (tc : Nat) (ds : List Nat) (h : tc = 0) : stateOf tc ds = none := by
  rw [stateOf, if_pos h]

theorem stateOf_eq_some (tc : Nat) (ds : List Nat) (h : ¬ tc = 0) :
    stateOf tc ds = some { count := tc, first_seen := minDate ds, last_seen := maxDate ds } := by
  rw [stateOf, if_neg h]

theorem foldl_applyN_char (m : CouponMatcher) (srcs : List (String × List SourceDict))
    (c : String) (hits : List (AIOverviewPrompt × AIOverviewResult)) :
    ∀ tc ds, (tc = 0 ↔ ds = []) →
      hits.foldl (fun oi pr => applyN pr.2.scraped_date (nMatchesC m srcs c pr) oi)
          (stateOf tc ds)
        = stateOf (tc + (hits.map (nMatchesC m srcs c)).sum)
            (ds ++ (hits.filter fun pr => decide (0 < nMatchesC m srcs c pr)).map
              fun pr => pr.2.scraped_date) := by
  induction hits with
  | nil =>
    intro tc ds _
    simp
  | cons pr rest ih =>
    intro tc ds hinv
    rw [List.foldl_cons, List.map_cons, List.sum_cons, List.filter_cons]
    rcases Nat.eq_zero_or_pos (nMatchesC m srcs c pr) with hn | hn
    · have hcond : ¬ ((decide (0 < nMatchesC m srcs c pr)) = true) := by simp [hn]
      rw [if_neg hcond]
      have happly : applyN pr.2.scraped_date (nMatchesC m srcs c pr) (stateOf tc ds)
          = stateOf tc ds := by
        rw [hn]
        rfl
      rw [happly, ih tc ds hinv]
      congr 1
      omega
    · have hstep : applyN pr.2.scraped_date (nMatchesC m srcs c pr) (stateOf tc ds)
          = stateOf (tc + nMatchesC m srcs c pr) (ds ++ [pr.2.scraped_date]) := by
        rw [applyN_pos _ _ hn]
        by_cases htc : tc = 0
        · have hds : ds = [] := hinv.mp htc
          subst htc
          subst hds
          rw [stateOf_eq_none 0 [] rfl]
          have hpos : ¬ (0 + nMatchesC m srcs c pr = 0) := by omega
          rw [stateOf_eq_some _ _ hpos]
          simp [defaultInfo, mergeMin, mergeMax, minDate, maxDate]
        · have hds : ds ≠ [] := fun h => htc (hinv.mpr h)
          rw [stateOf_eq_some tc ds htc]
          have hpos : ¬ (tc + nMatchesC m srcs c pr = 0) := by omega
          rw [stateOf_eq_some _ _ hpos]
          simp only [Option.getD_some, Option.some.injEq]
          rw [minDate_append_singleton, maxDate_append_singleton]
      have hcond : (decide (0 < nMatchesC m srcs c pr)) = true := by simp [hn]
      rw [if_pos hcond, hstep, List.map_cons]
      rw [ih (tc + nMatchesC m srcs c pr) (ds ++ [pr.2.scraped_date])
        (by
          constructor
          · intro h
            exact absurd h (by omega)
          · intro h
            simp at h)]
      congr 1
      · omega
      · rw [List.append_assoc]
        rfl

theorem bucket_coupons_char (m : CouponMatcher) (srcs : List (String × List SourceDict))
    (c : String) (hits : List (AIOverviewPrompt × AIOverviewResult)) :
    lookupAssoc c ((hits.foldl (fun b pr => updBucket m srcs pr b) defaultBucket).coupons)
      = stateOf ((hits.map (nMatchesC m srcs c)).sum)
          ((hits.filter fun pr => decide (0 < nMatchesC m srcs c pr)).map
            fun pr => pr.2.scraped_date) := by
  rw [lookup_coupons_foldl_updBucket]
  have h0 : lookupAssoc c (defaultBucket.coupons) = stateOf 0 [] := rfl
  rw [h0, foldl_applyN_char m srcs c hits 0 [] (by simp)]
  simp

theorem keysNodup_foldl_matches (d : Nat) (ms : List CouponMatch) :
    ∀ cs : List (String × CouponInfo), (cs.map Prod.fst).Nodup →
      ((ms.foldl (fun cs2 mt => updateAssoc defaultInfo mt.coupon_code (updInfo d) cs2) cs).map
        Prod.fst).Nodup := by
  induction ms with
  | nil =>
    intro cs h
    exact h
  | cons mt rest ih =>
    intro cs h
    exact ih _ (keysNodup_updateAssoc _ _ _ _ h)

theorem coupons_keysNodup_foldl_updBucket (m : CouponMatcher)
    (srcs : List (String × List SourceDict))
    (hits : List (AIOverviewPrompt × AIOverviewResult)) :
    ∀ b0 : Bucket, (b0.coupons.map Prod.fst).Nodup →
      ((hits.foldl (fun b pr => updBucket m srcs pr b) b0).coupons.map Prod.fst).Nodup := by
  induction hits with
  | nil =>
    intro b0 h
    exact h
  | cons pr rest ih =>
    intro b0 h
    exact ih _ (keysNodup_foldl_matches _ _ _ h)

/-! ### Claim C2 -/

/-- Total number of occurrences of code `c` across the results of the bucket
keyed `k` (each occurrence is one `MatchResult` of `find_matches`, wrapped by
`analyze_result`). -/
def codeMatchCount (m : CouponMatcher) (srcs : List (String × List SourceDict))
    (results : List (AIOverviewPrompt × AIOverviewResult))
    (k : String × Option String) (c : String) : Nat :=
  ((bucketResults results k).map (nMatchesC m srcs c)).sum

/-- Scrape dates of the bucket's results that contain code `c` (at least one
match), in window order. -/
def codeDates (m : CouponMatcher) (srcs : List (String × List SourceDict))
    (results : List (AIOverviewPrompt × AIOverviewResult))
    (k : String × Option String) (c : String) : List Nat :=
  ((bucketResults results k).filter fun pr =>
    (resultMatches m srcs pr).any fun mt => decide (mt.coupon_code = c)).map
    fun pr => pr.2.scraped_date

theorem codeDates_eq (m : CouponMatcher) (srcs : List (String × List SourceDict))
    (results : List (AIOverviewPrompt × AIOverviewResult))
    (k : String × Option String) (c : String) :
    codeDates m srcs results k c
      = ((bucketResults results k).filter fun pr =>
          decide (0 < nMatchesC m srcs c pr)).map fun pr => pr.2.scraped_date := by
  rw [codeDates]
  congr 1
  apply List.filter_congr
  intro pr _
  cases h : (resultMatches m srcs pr).any fun mt => decide (mt.coupon_code = c) with
  | true =>
    rcases List.any_eq_true.mp h with ⟨mt, hmt, hdec⟩
    have hmem : mt ∈ (resultMatches m srcs pr).filter fun mt => decide (mt.coupon_code = c) :=
      List.mem_filter.mpr ⟨hmt, hdec⟩
    have hlen : 0 < nMatchesC m srcs c pr := by
      rw [nMatchesC]
      exact List.length_pos.mpr (List.ne_nil_of_mem hmem)
    simp [hlen]
  | false =>
    have hlen : nMatchesC m srcs c pr = 0 := by
      rw [nMatchesC, List.length_eq_zero, List.filter_eq_nil_iff]
      intro mt hmt
      intro hdec
      have : (resultMatches m srcs pr).any (fun mt => decide (mt.coupon_code = c)) = true :=
        List.any_eq_true.mpr ⟨mt, hmt, hdec⟩
      rw [h] at this
      cases this
    simp [hlen]

/-- C2: in every emitted row with a detected coupon, `mention_count` is the
total number of occurrences of that code across the results of the row's
`(keyword, location)` bucket, `first_seen` is the minimum scrape date among
the bucket's results containing the code, and `last_seen` the maximum. -/
theorem claim_C2_aggregation (m : CouponMatcher)
    (results : List (AIOverviewPrompt × AIOverviewResult))
    (srcs : List (String × List SourceDict)) (row : WeeklyReportRow) (c : String)
    (hmem : row ∈ (generate_report m results srcs).1)
    (hc : row.coupon_detected = some c) :
    row.mention_count = codeMatchCount m srcs results (row.keyword, row.location) c ∧
    row.first_seen = minDate (codeDates m srcs results (row.keyword, row.location) c) ∧
    row.last_seen = maxDate (codeDates m srcs results (row.keyword, row.location) c) := by
  simp only [generate_report] at hmem
  rw [(List.perm_insertionSort _ _).mem_iff] at hmem
  rcases List.mem_flatMap.mp hmem with ⟨kb, hkb, hrow⟩
  obtain ⟨k, b⟩ := kb
  rw [bucketRows] at hrow
  by_cases hcoup : b.coupons = []
  · rw [if_pos hcoup, List.mem_singleton] at hrow
    subst hrow
    cases hc
  · rw [if_neg hcoup] at hrow
    rcases List.mem_map.mp hrow with ⟨ci, hci, hr⟩
    subst hr
    simp only [Option.some.injEq] at hc
    have hnd := keysNodup_foldl_stepKD m srcs results [] (by simp)
    have hlookup : lookupAssoc k (results.foldl (stepKD m srcs) []) = some b :=
      lookupAssoc_eq_some_of_mem _ (k, b) hnd hkb
    rw [lookup_foldl_stepKD m srcs results k []] at hlookup
    by_cases hhits : bucketResults results k = []
    · rw [if_pos hhits] at hlookup
      cases hlookup
    · rw [if_neg hhits] at hlookup
      injection hlookup with hb
      rw [show (lookupAssoc k ([] : List ((String × Option String) × Bucket))).getD defaultBucket
          = defaultBucket from rfl] at hb
      have hcoupkey : (c, ci.2) ∈ b.coupons := by
        have : ci = (c, ci.2) := by
          rw [← hc]
        rw [← this]
        exact hci
      have hcnodup : (b.coupons.map Prod.fst).Nodup := by
        rw [← hb]
        exact coupons_keysNodup_foldl_updBucket m srcs _ _ (by simp [defaultBucket])
      have hlc : lookupAssoc c b.coupons = some ci.2 :=
        lookupAssoc_eq_some_of_mem _ (c, ci.2) hcnodup hcoupkey
      rw [← hb, bucket_coupons_char m srcs c] at hlc
      by_cases htc : ((bucketResults results k).map (nMatchesC m srcs c)).sum = 0
      · rw [stateOf_eq_none _ _ htc] at hlc
        cases hlc
      · rw [stateOf_eq_some _ _ htc] at hlc
        injection hlc with hci2
        have hkey : ((k.1 : String), (k.2 : Option String)) = k := rfl
        refine ⟨?_, ?_, ?_⟩
        · show ci.2.count = codeMatchCount m srcs results (k.1, k.2) c
          rw [← hci2, codeMatchCount, hkey]
        · show ci.2.first_seen = minDate (codeDates m srcs results (k.1, k.2) c)
          rw [← hci2, codeDates_eq, hkey]
        · show ci.2.last_seen = maxDate (codeDates m srcs results (k.1, k.2) c)
          rw [← hci2, codeDates_eq, hkey]

/-- Second witness result for the same keyword, one day later. -/
def wResultC : AIOverviewResult :=
  { id := "r2", scraped_date := 2, response_text := some "SAVE10 still works" }

/-- The aggregated row for two SAVE10 results on days 1 and 2. -/
def wRowAgg : WeeklyReportRow :=
  { keyword := "nordvpn coupon", location := some "US", product := "nordvpn",
    has_ai_overview := true, coupon_detected := some "SAVE10", is_valid_coupon := some true,
    first_seen := some 1, last_seen := some 2, mention_count := 2 }

theorem claim_C2_aggregation_witness :
    wRowAgg.mention_count =
      codeMatchCount wMatcher [] [(wPrompt, wResult), (wPrompt, wResultC)]
        (wRowAgg.keyword, wRowAgg.location) "SAVE10" ∧
    wRowAgg.first_seen =
      minDate (codeDates wMatcher [] [(wPrompt, wResult), (wPrompt, wResultC)]
        (wRowAgg.keyword, wRowAgg.location) "SAVE10") ∧
    wRowAgg.last_seen =
      maxDate (codeDates wMatcher [] [(wPrompt, wResult), (wPrompt, wResultC)]
        (wRowAgg.keyword, wRowAgg.location) "SAVE10") :=
  claim_C2_aggregation wMatcher [(wPrompt, wResult), (wPrompt, wResultC)] [] wRowAgg "SAVE10"
    (by decide) (by decide)

/-! ### Claim C3: the row order -/

theorem char_lt_iff_toNat (a b : Char) : a < b ↔ a.toNat < b.toNat := Iff.rfl

theorem char_toNat_inj {a b : Char} (h : a.toNat = b.toNat) : a = b := by
  apply Char.ext
  exact UInt32.toNat.inj h

theorem listLtB_iff_lt (x : List Char) : ∀ y, listLtB x y = true ↔ x < y := by
  induction x with
  | nil =>
    intro y
    cases y with
    | nil =>
      constructor
      · intro h
        exact absurd h (by simp [listLtB])
      · intro h
        nomatch h
    | cons b bs =>
      constructor
      · intro _
        exact List.Lex.nil
      · intro _
        rfl
  | cons a as ih =>
    intro y
    cases y with
    | nil =>
      constructor
      · intro h
        exact absurd h (by simp [listLtB])
      · intro h
        nomatch h
    | cons b bs =>
      by_cases hab : a.toNat < b.toNat
      · constructor
        · intro _
          exact List.Lex.rel ((char_lt_iff_toNat a b).mpr hab)
        · intro _
          simp [listLtB, hab]
      · by_cases heq : a.toNat = b.toNat
        · have habc : a = b := char_toNat_inj heq
          subst habc
          constructor
          · intro h
            rw [listLtB, if_neg hab, if_pos rfl] at h
            exact List.Lex.cons ((ih bs).mp h)
          · intro h
            rw [listLtB, if_neg hab, if_pos rfl]
            cases h with
            | cons htl => exact (ih bs).mpr htl
            | rel hc => exact absurd ((char_lt_iff_toNat a a).mp hc) (by omega)
        · constructor
          · intro h
            rw [listLtB, if_neg hab, if_neg heq] at h
            cases h
          · intro h
            cases h with
            | cons htl => exact absurd rfl heq
            | rel hc => exact absurd ((char_lt_iff_toNat a b).mp hc) hab

theorem strLtB_iff (a b : String) : strLtB a b = true ↔ a < b :=
  (listLtB_iff_lt a.data b.data).trans String.lt_iff_toList_lt.symm

theorem strLeB_iff (a b : String) : strLeB a b = true ↔ a ≤ b := by
  rw [strLeB, Bool.not_eq_eq_eq_not, Bool.not_true]
  constructor
  · intro h
    by_contra hab
    rw [not_le] at hab
    rw [(strLtB_iff b a).mpr hab] at h
    cases h
  · intro h
    cases hq : strLtB b a with
    | false => rfl
    | true => exact absurd ((strLtB_iff b a).mp hq) (not_lt.mpr h)

/-- The Python sort key of a row, as a lexicographic product. -/
def rowKey (r : WeeklyReportRow) : Lex (String × Lex (String × Lex (Bool × String))) :=
  toLex (r.keyword, toLex (r.location.getD "",
    toLex (r.coupon_detected.isNone, r.coupon_detected.getD "")))

theorem lex_step_iff {α : Type} [LinearOrder α] (ltb : α → α → Bool)
    (hltb : ∀ x y, ltb x y = true ↔ x < y) (s1 s2 : α) [Decidable (s1 ≠ s2)]
    (rest : Bool) (rest' : Prop) (hrest : rest = true ↔ rest') :
    ((if s1 ≠ s2 then ltb s1 s2 else rest) = true) ↔ (s1 < s2 ∨ (s1 = s2 ∧ rest')) := by
  by_cases h : s1 = s2
  · rw [if_neg (fun hh => hh h)]
    constructor
    · intro hr
      exact Or.inr ⟨h, hrest.mp hr⟩
    · rintro (hlt | ⟨_, hr⟩)
      · rw [h] at hlt
        exact absurd hlt (lt_irrefl s2)
      · exact hrest.mpr hr
  · rw [if_pos h]
    rw [hltb]
    constructor
    · intro hlt
      exact Or.inl hlt
    · rintro (hlt | ⟨heq, _⟩)
      · exact hlt
      · exact absurd heq h

theorem rowLeB_iff (a b : WeeklyReportRow) : rowLeB a b = true ↔ rowKey a ≤ rowKey b := by
  rw [rowLeB, rowKey, rowKey, Prod.Lex.le_iff, Prod.Lex.le_iff, Prod.Lex.le_iff]
  refine lex_step_iff strLtB strLtB_iff _ _ _ _ ?_
  refine lex_step_iff strLtB strLtB_iff _ _ _ _ ?_
  refine lex_step_iff (fun x y => decide (x < y)) (fun x y => by simp) _ _ _ _ ?_
  exact strLeB_iff _ _

/-- The deterministic row order of the claim: keyword ascending, then
location ascending with an absent location read as the empty string, then
rows with a coupon before rows without (`isNone`: `false < true`), then
coupon code ascending. -/
def reportRowLe (r1 r2 : WeeklyReportRow) : Prop :=
  r1.keyword < r2.keyword ∨ (r1.keyword = r2.keyword ∧
    (r1.location.getD "" < r2.location.getD "" ∨ (r1.location.getD "" = r2.location.getD "" ∧
      (r1.coupon_detected.isNone < r2.coupon_detected.isNone ∨
        (r1.coupon_detected.isNone = r2.coupon_detected.isNone ∧
          r1.coupon_detected.getD "" ≤ r2.coupon_detected.getD "")))))

theorem reportRowLe_iff (a b : WeeklyReportRow) : reportRowLe a b ↔ rowKey a ≤ rowKey b := by
  rw [rowKey, rowKey, Prod.Lex.le_iff, Prod.Lex.le_iff, Prod.Lex.le_iff]
  exact Iff.rfl

/-- C3: the emitted row list is sorted by keyword, then location (absent
location read as empty string), then coupon-bearing rows before null-coupon
rows, then coupon code; and two runs over the same fetched inputs are
identical (the embedded fold is a pure function of them). -/
theorem claim_C3_sorted_deterministic (m : CouponMatcher)
    (results : List (AIOverviewPrompt × AIOverviewResult))
    (srcs : List (String × List SourceDict)) :
    List.Sorted reportRowLe (generate_report m results srcs).1 ∧
    generate_report m results srcs = generate_report m results srcs := by
  refine ⟨?_, rfl⟩
  have ht : IsTotal WeeklyReportRow (fun a b => rowLeB a b = true) := by
    constructor
    intro a b
    rcases le_total (rowKey a) (rowKey b) with h | h
    · exact Or.inl ((rowLeB_iff a b).mpr h)
    · exact Or.inr ((rowLeB_iff b a).mpr h)
  have htr : IsTrans WeeklyReportRow (fun a b => rowLeB a b = true) := by
    constructor
    intro a b c hab hbc
    exact (rowLeB_iff a c).mpr (le_trans ((rowLeB_iff a b).mp hab) ((rowLeB_iff b c).mp hbc))
  have hs : List.Sorted (fun a b => rowLeB a b = true) (generate_report m results srcs).1 := by
    simp only [generate_report]
    exact List.sorted_insertionSort _ _
  exact List.Pairwise.imp
    (fun hab => (reportRowLe_iff _ _).mpr ((rowLeB_iff _ _).mp hab)) hs

/-! ### Claim C6: context snippets -/

/-- Words carried by `pyWords` are non-empty and free of whitespace. -/
theorem wordsAux_sound (l : List Char) :
    ∀ acc, (∀ c ∈ acc, isPySpace c = false) →
      ∀ w ∈ wordsAux acc l, w ≠ [] ∧ ∀ c ∈ w, isPySpace c = false := by
  induction l with
  | nil =>
    intro acc hacc w hw
    rw [wordsAux] at hw
    by_cases hac : acc.isEmpty
    · rw [if_pos hac] at hw
      cases hw
    · rw [if_neg hac] at hw
      rw [List.mem_singleton] at hw
      subst hw
      refine ⟨fun he => hac ?_, fun c hc => hacc c (List.mem_reverse.mp hc)⟩
      rw [List.isEmpty_iff]
      simpa using List.reverse_eq_nil_iff.mp he
  | cons c rest ih =>
    intro acc hacc w hw
    rw [wordsAux] at hw
    by_cases hsp : isPySpace c
    · rw [if_pos hsp] at hw
      by_cases hac : acc.isEmpty
      · rw [if_pos hac] at hw
        exact ih [] (by simp) w hw
      · rw [if_neg hac] at hw
        rcases List.mem_cons.mp hw with hw | hw
        · subst hw
          refine ⟨fun he => hac ?_, fun d hd => hacc d (List.mem_reverse.mp hd)⟩
          rw [List.isEmpty_iff]
          simpa using List.reverse_eq_nil_iff.mp he
        · exact ih [] (by simp) w hw
    · rw [if_neg hsp] at hw
      refine ih (c :: acc) ?_ w hw
      intro d hd
      rcases List.mem_cons.mp hd with hd | hd
      · subst hd
        exact Bool.eq_false_iff.mpr hsp
      · exact hacc d hd

theorem pyWords_sound (l : List Char) :
    ∀ w ∈ pyWords l, w ≠ [] ∧ ∀ c ∈ w, isPySpace c = false :=
  wordsAux_sound l [] (by simp)

theorem joinWordsAux_eq_cons (w : List Char) (ws : List (List Char)) :
    joinWordsAux (w :: ws) = ' ' :: joinWords (w :: ws) := rfl

theorem mem_joinWordsAux (ws : List (List Char)) (c : Char) :
    c ∈ joinWordsAux ws → c = ' ' ∨ ∃ w ∈ ws, c ∈ w := by
  induction ws with
  | nil =>
    intro h
    cases h
  | cons w rest ih =>
    intro h
    rw [joinWordsAux] at h
    rcases List.mem_cons.mp h with h | h
    · exact Or.inl h
    · rcases List.mem_append.mp h with h | h
      · exact Or.inr ⟨w, List.mem_cons_self _ _, h⟩
      · rcases ih h with h | ⟨w', hw', hc⟩
        · exact Or.inl h
        · exact Or.inr ⟨w', List.mem_cons_of_mem _ hw', hc⟩

theorem mem_joinWords (ws : List (List Char)) (c : Char) :
    c ∈ joinWords ws → c = ' ' ∨ ∃ w ∈ ws, c ∈ w := by
  cases ws with
  | nil =>
    intro h
    cases h
  | cons w rest =>
    intro h
    rw [joinWords] at h
    rcases List.mem_append.mp h with h | h
    · exact Or.inr ⟨w, List.mem_cons_self _ _, h⟩
    · rcases mem_joinWordsAux rest c h with h | ⟨w', hw', hc⟩
      · exact Or.inl h
      · exact Or.inr ⟨w', List.mem_cons_of_mem _ hw', hc⟩

theorem joinWords_head (ws : List (List Char))
    (hws : ∀ w ∈ ws, w ≠ [] ∧ ∀ c ∈ w, isPySpace c = false) :
    ∀ c, (joinWords ws).head? = some c → isPySpace c = false := by
  cases ws with
  | nil =>
    intro c h
    cases h
  | cons w rest =>
    intro c h
    rcases hws w (List.mem_cons_self _ _) with ⟨hne, hnosp⟩
    rw [joinWords] at h
    cases hw : w with
    | nil => exact absurd hw hne
    | cons d w' =>
      rw [hw, List.cons_append, List.head?_cons] at h
      injection h with h
      subst h
      refine hnosp d ?_
      rw [hw]
      exact List.mem_cons_self _ _

theorem mem_of_getLast_some : ∀ (l : List Char) (c : Char), l.getLast? = some c → c ∈ l := by
  intro l
  induction l with
  | nil =>
    intro c h
    cases h
  | cons a t ih =>
    intro c h
    cases t with
    | nil =>
      rw [List.getLast?_singleton] at h
      injection h with h
      subst h
      exact List.mem_cons_self _ _
    | cons b t' =>
      rw [List.getLast?_cons_cons] at h
      exact List.mem_cons_of_mem _ (ih c h)

theorem joinWords_ne_nil (w : List Char) (ws : List (List Char)) (hne : w ≠ []) :
    joinWords (w :: ws) ≠ [] := by
  rw [joinWords]
  intro h
  rcases List.append_eq_nil.mp h with ⟨h1, _⟩
  exact hne h1

theorem joinWords_last (ws : List (List Char))
    (hws : ∀ w ∈ ws, w ≠ [] ∧ ∀ c ∈ w, isPySpace c = false) :
    ∀ c, (joinWords ws).getLast? = some c → isPySpace c = false := by
  induction ws with
  | nil =>
    intro c h
    cases h
  | cons w rest ih =>
    intro c h
    rcases hws w (List.mem_cons_self _ _) with ⟨hne, hnosp⟩
    cases rest with
    | nil =>
      rw [joinWords, joinWordsAux, List.append_nil] at h
      exact hnosp c (mem_of_getLast_some _ _ h)
    | cons w' rest' =>
      rw [joinWords, joinWordsAux_eq_cons] at h
      have hjw : joinWords (w' :: rest') ≠ [] :=
        joinWords_ne_nil w' rest' (hws w' (List.mem_cons_of_mem _ (List.mem_cons_self _ _))).1
      have hcons : (' ' :: joinWords (w' :: rest')) ≠ [] := List.cons_ne_nil _ _
      rw [List.getLast?_append_of_ne_nil _ hcons] at h
      have h2 : (' ' :: joinWords (w' :: rest')).getLast? = (joinWords (w' :: rest')).getLast? := by
        cases hj : joinWords (w' :: rest') with
        | nil => exact absurd hj hjw
        | cons a l => rw [List.getLast?_cons_cons]
      rw [h2] at h
      exact ih (fun q hq => hws q (List.mem_cons_of_mem _ hq)) c h

theorem chain_nospace (w : List Char) (h : ∀ c ∈ w, isPySpace c = false) :
    w.Chain' (fun x y => ¬ (isPySpace x = true ∧ isPySpace y = true)) := by
  induction w with
  | nil => exact List.chain'_nil
  | cons c rest ih =>
    rw [List.chain'_cons']
    refine ⟨fun b _ hpair => ?_, ih (fun d hd => h d (List.mem_cons_of_mem _ hd))⟩
    rw [h c (List.mem_cons_self _ _)] at hpair
    cases hpair.1

theorem joinWords_chain (ws : List (List Char))
    (hws : ∀ w ∈ ws, w ≠ [] ∧ ∀ c ∈ w, isPySpace c = false) :
    (joinWords ws).Chain' (fun x y => ¬ (isPySpace x = true ∧ isPySpace y = true)) := by
  induction ws with
  | nil => exact List.chain'_nil
  | cons w rest ih =>
    rcases hws w (List.mem_cons_self _ _) with ⟨hne, hnosp⟩
    have hrest : ∀ q ∈ rest, q ≠ [] ∧ ∀ c ∈ q, isPySpace c = false :=
      fun q hq => hws q (List.mem_cons_of_mem _ hq)
    cases rest with
    | nil =>
      rw [joinWords, joinWordsAux, List.append_nil]
      exact chain_nospace w hnosp
    | cons w' rest' =>
      rw [joinWords, joinWordsAux_eq_cons]
      refine List.Chain'.append (chain_nospace w hnosp) ?_ ?_
      · rw [List.chain'_cons']
        refine ⟨fun b hb hpair => ?_, ih hrest⟩
        rw [joinWords_head (w' :: rest') hrest b hb] at hpair
        cases hpair.2
      · intro x hx y hy
        rw [List.head?_cons] at hy
        injection hy with hy
        subst hy
        intro hpair
        rw [hnosp x (mem_of_getLast_some _ _ hx)] at hpair
        cases hpair.1

/-- C6: every match context is the slice widened by `context_chars` on each
side clamped to the text bounds, with a leading ellipsis exactly when the
left bound was clamped above zero, a trailing ellipsis exactly when the
right bound was clamped below the text length, and the core snippet trimmed
with every whitespace run collapsed to a single space. -/
theorem claim_C6_context_snippet (m : CouponMatcher) (text : String) (mt : MatchResult)
    (hmem : mt ∈ m.find_matches text) :
    ∃ core : List Char,
      mt.context.data =
        (if m.context_chars < mt.start_pos then "...".data else []) ++ core ++
          (if mt.end_pos + m.context_chars < text.data.length then "...".data else []) ∧
      core = joinWords (pyWords (pyStripL
        ((text.data.drop (mt.start_pos - m.context_chars)).take
          (min text.data.length (mt.end_pos + m.context_chars) -
            (mt.start_pos - m.context_chars))))) ∧
      (∀ c ∈ core, isPySpace c = true → c = ' ') ∧
      core.Chain' (fun x y => ¬ (isPySpace x = true ∧ isPySpace y = true)) ∧
      (∀ c, core.head? = some c → isPySpace c = false) ∧
      (∀ c, core.getLast? = some c → isPySpace c = false) := by
  rw [CouponMatcher.find_matches] at hmem
  by_cases ht : text = ""
  · rw [if_pos ht] at hmem
    cases hmem
  · rw [if_neg ht] at hmem
    rcases List.mem_flatMap.mp hmem with ⟨coupon, _, hmt⟩
    rcases List.mem_map.mp hmt with ⟨sp, _, heq⟩
    subst heq
    refine ⟨joinWords (pyWords (pyStripL
      ((text.data.drop (sp.1 - m.context_chars)).take
        (min text.data.length (sp.2 + m.context_chars) - (sp.1 - m.context_chars))))),
      ?_, rfl, ?_, ?_, ?_, ?_⟩
    · show (extractContext text.data sp.1 sp.2 m.context_chars).data = _
      rw [extractContext]
      have hpre : (if 0 < sp.1 - m.context_chars then "...".data else ([] : List Char))
          = (if m.context_chars < sp.1 then "...".data else []) := by
        by_cases h : m.context_chars < sp.1
        · rw [if_pos h, if_pos (show 0 < sp.1 - m.context_chars by omega)]
        · rw [if_neg h, if_neg (show ¬ 0 < sp.1 - m.context_chars by omega)]
      have hsuf : (if min text.data.length (sp.2 + m.context_chars) < text.data.length then
            "...".data else ([] : List Char))
          = (if sp.2 + m.context_chars < text.data.length then "...".data else []) := by
        by_cases h : sp.2 + m.context_chars < text.data.length
        · rw [if_pos h, if_pos (show min text.data.length (sp.2 + m.context_chars)
            < text.data.length by omega)]
        · rw [if_neg h, if_neg (show ¬ min text.data.length (sp.2 + m.context_chars)
            < text.data.length by omega)]
      rw [hpre, hsuf]
    · intro c hc hsp
      rcases mem_joinWords _ c hc with h | ⟨w, hw, hcw⟩
      · exact h
      · rw [(pyWords_sound _ w hw).2 c hcw] at hsp
        cases hsp
    · exact joinWords_chain _ (pyWords_sound _)
    · exact joinWords_head _ (pyWords_sound _)
    · exact joinWords_last _ (pyWords_sound _)

/-- Witness matcher with a narrow context window. -/
def wMatcher10 : CouponMatcher := CouponMatcher.mk' ["save10"] 10

/-- Witness text with internal whitespace runs around a mid-text match. -/
def wText : String := "Check   the SAVE10 code  today friends"

/-- The match `wMatcher10` finds in `wText`. -/
def wMt : MatchResult :=
  { coupon_code := "SAVE10", start_pos := 12, end_pos := 18,
    context := "...eck the SAVE10 code tod..." }

theorem claim_C6_context_snippet_witness :
    ∃ core : List Char,
      wMt.context.data =
        (if wMatcher10.context_chars < wMt.start_pos then "...".data else []) ++ core ++
          (if wMt.end_pos + wMatcher10.context_chars < wText.data.length then "...".data
            else []) ∧
      core = joinWords (pyWords (pyStripL
        ((wText.data.drop (wMt.start_pos - wMatcher10.context_chars)).take
          (min wText.data.length (wMt.end_pos + wMatcher10.context_chars) -
            (wMt.start_pos - wMatcher10.context_chars))))) ∧
      (∀ c ∈ core, isPySpace c = true → c = ' ') ∧
      core.Chain' (fun x y => ¬ (isPySpace x = true ∧ isPySpace y = true)) ∧
      (∀ c, core.head? = some c → isPySpace c = false) ∧
      (∀ c, core.getLast? = some c → isPySpace c = false) :=
  claim_C6_context_snippet wMatcher10 wText wMt (by decide)

/-! ### Claim C1: whole-word case-insensitive matching -/

theorem toNat_ofNat_valid (n : Nat) (h : n.isValidChar) : (Char.ofNat n).toNat = n := by
  simp [Char.ofNat, dif_pos h, Char.ofNatAux, Char.toNat, UInt32.toNat, BitVec.toNat_ofNatLt]

theorem lowerNat_toUpper (c : Char) : lowerNat (Char.toUpper c) = lowerNat c := by
  unfold Char.toUpper
  by_cases h : c.toNat ≥ 97 ∧ c.toNat ≤ 122
  · rw [if_pos h]
    have hv : (c.toNat - 32).isValidChar := by
      constructor
      omega
    have hr := toNat_ofNat_valid (c.toNat - 32) hv
    simp only [lowerNat, hr]
    split_ifs <;> omega
  · rw [if_neg h]

theorem isWordCharB_toUpper (c : Char) : isWordCharB (Char.toUpper c) = isWordCharB c := by
  unfold Char.toUpper
  by_cases h : c.toNat ≥ 97 ∧ c.toNat ≤ 122
  · rw [if_pos h]
    have hv : (c.toNat - 32).isValidChar := by
      constructor
      omega
    have hr := toNat_ofNat_valid (c.toNat - 32) hv
    simp only [isWordCharB, hr]
    rw [decide_eq_decide]
    omega
  · rw [if_neg h]

theorem map_lowerNat_map_toUpper (l : List Char) :
    (l.map Char.toUpper).map lowerNat = l.map lowerNat := by
  rw [List.map_map]
  apply List.map_congr_left
  intro c _
  exact lowerNat_toUpper c

theorem matchesAt_map_toUpper (code t : List Char) (i : Nat) :
    matchesAt (code.map Char.toUpper) t i = matchesAt code t i := by
  rw [matchesAt, matchesAt, List.length_map, map_lowerNat_map_toUpper]

theorem searchB_map_toUpper (code t : List Char) :
    searchB (code.map Char.toUpper) t = searchB code t := by
  rw [searchB, searchB]
  congr 1
  funext i
  exact matchesAt_map_toUpper code t i

/-- An occurrence of `code` in `t` at position `i` as "a standalone word,
case-insensitively": the characters at `i` spell the code up to case
folding, the previous character (if any) is not a word character, and the
following character (if any) is not a word character. -/
def standaloneAt (code t : List Char) (i : Nat) : Bool :=
  decide (((t.drop i).take code.length).map lowerNat = code.map lowerNat) &&
    (decide (i = 0) || !wordAt t (i - 1)) &&
    !wordAt t (i + code.length)

/-- The code occurs somewhere in the text as a standalone word. -/
def standaloneOccB (code t : List Char) : Bool :=
  (List.range (t.length + 1)).any (standaloneAt code t)

theorem word_of_lowerNat_eq {a b : Char} (h : lowerNat a = lowerNat b)
    (hb : isWordCharB b = true) : isWordCharB a = true := by
  simp only [isWordCharB, decide_eq_true_eq] at hb ⊢
  rw [lowerNat, lowerNat] at h
  split_ifs at h <;> omega

theorem ciEq_char (code t : List Char) (i j : Nat) (hj : j < code.length)
    (hci : ((t.drop i).take code.length).map lowerNat = code.map lowerNat) :
    ∃ a b, t[i + j]? = some a ∧ code[j]? = some b ∧ lowerNat a = lowerNat b := by
  have hb : code[j]? = some code[j] := List.getElem?_eq_getElem hj
  have hcg := congrArg (fun l => l[j]?) hci
  simp only [List.getElem?_map, hb] at hcg
  rcases Option.map_eq_some'.mp hcg with ⟨a, ha, hla⟩
  have hsl : ((t.drop i).take code.length)[j]? = (t.drop i)[j]? :=
    List.getElem?_take_of_lt hj
  rw [hsl, List.getElem?_drop] at ha
  exact ⟨a, code[j], ha, hb, hla⟩

theorem mem_of_getElem_some {l : List Char} {n : Nat} {a : Char} (h : l[n]? = some a) :
    a ∈ l := by
  rcases List.getElem?_eq_some_iff.mp h with ⟨hn, hv⟩
  rw [← hv]
  exact l.getElem_mem hn

theorem standaloneAt_eq_matchesAt (code t : List Char) (hne : code ≠ [])
    (hword : ∀ c ∈ code, isWordCharB c = true) (i : Nat) :
    standaloneAt code t i = matchesAt code t i := by
  rw [standaloneAt, matchesAt]
  cases hci : decide (((t.drop i).take code.length).map lowerNat = code.map lowerNat) with
  | false => simp [hci]
  | true =>
    have hci' := of_decide_eq_true hci
    have hL : 0 < code.length := List.length_pos.mpr hne
    obtain ⟨a0, b0, ha0, hb0, hl0⟩ := ciEq_char code t i 0 hL hci'
    rw [Nat.add_zero] at ha0
    have hw0 : wordAt t i = true := by
      rw [wordAt, List.get?_eq_getElem?, ha0]
      exact word_of_lowerNat_eq hl0 (hword b0 (mem_of_getElem_some hb0))
    obtain ⟨a1, b1, ha1, hb1, hl1⟩ := ciEq_char code t i (code.length - 1) (by omega) hci'
    have hw1 : wordAt t (i + code.length - 1) = true := by
      have hidx : i + code.length - 1 = i + (code.length - 1) := by omega
      rw [hidx, wordAt, List.get?_eq_getElem?, ha1]
      exact word_of_lowerNat_eq hl1 (hword b1 (mem_of_getElem_some hb1))
    have hb_start : boundaryAt t i = (decide (i = 0) || !wordAt t (i - 1)) := by
      rw [boundaryAt, hw0]
      have hd : decide (i ≠ 0) = !decide (i = 0) := by
        cases hq : decide (i = 0) with
        | false => simpa using of_decide_eq_false hq
        | true => simpa using of_decide_eq_true hq
      rw [hd]
      cases decide (i = 0) <;> cases wordAt t (i - 1) <;> rfl
    have hb_end : boundaryAt t (i + code.length) = !wordAt t (i + code.length) := by
      rw [boundaryAt, hw1]
      have hnz : decide (i + code.length ≠ 0) = true := by
        rw [decide_eq_true_eq]
        omega
      rw [hnz]
      cases wordAt t (i + code.length) <;> rfl
    rw [hb_start, hb_end]
    cases (decide (i = 0) || !wordAt t (i - 1)) <;> cases (!wordAt t (i + code.length)) <;> rfl

theorem standaloneOccB_eq_searchB (code t : List Char) (hne : code ≠ [])
    (hword : ∀ c ∈ code, isWordCharB c = true) :
    standaloneOccB code t = searchB code t := by
  rw [standaloneOccB, searchB]
  congr 1
  funext i
  exact standaloneAt_eq_matchesAt code t hne hword i

theorem matchSpans_matches (code t : List Char) (sp : Nat × Nat) (h : sp ∈ matchSpans code t) :
    sp.1 ∈ List.range (t.length + 1) ∧ matchesAt code t sp.1 = true := by
  rw [matchSpans] at h
  rcases pickAux_mem _ _ _ _ h with ⟨h1, _⟩
  exact ⟨(List.mem_filter.mp h1).1, (List.mem_filter.mp h1).2⟩

theorem matchSpans_ne_nil (code t : List Char) (h : searchB code t = true) :
    matchSpans code t ≠ [] := by
  rw [searchB, List.any_eq_true] at h
  rcases h with ⟨i, hi, hm⟩
  have hmem : i ∈ (List.range (t.length + 1)).filter (matchesAt code t) :=
    List.mem_filter.mpr ⟨hi, hm⟩
  rw [matchSpans]
  cases hf : (List.range (t.length + 1)).filter (matchesAt code t) with
  | nil =>
    rw [hf] at hmem
    cases hmem
  | cons s rest => exact pickAux_zero_ne_nil _ _ _

theorem mem_coupons_mk' (cs : List String) (cc : Nat) (C : String) (hC : C ≠ "")
    (htrim : pyStrip C = C) (htracked : C ∈ cs) :
    pyUpper C ∈ (CouponMatcher.mk' cs cc).coupons := by
  apply List.mem_filterMap.mpr
  refine ⟨C, htracked, ?_⟩
  rw [htrim, if_neg hC]

/-- C1: if a tracked code occurs in the text as a standalone word (up to
case), `find_matches` returns at least one result whose `coupon_code` is the
upper-cased code; if the code has no standalone-word occurrence — in
particular when it only occurs inside a longer alphanumeric token — no
returned match carries that code.  The hypotheses say the code is a
non-empty, already-stripped word-character string, as coupon codes are. -/
theorem claim_C1_standalone_word (cs : List String) (cc : Nat) (C text : String)
    (hC : C ≠ "") (htrim : pyStrip C = C)
    (hword : ∀ c ∈ C.data, isWordCharB c = true)
    (htracked : C ∈ cs) :
    (standaloneOccB C.data text.data = true →
      ∃ mt ∈ (CouponMatcher.mk' cs cc).find_matches text, mt.coupon_code = pyUpper C) ∧
    (standaloneOccB C.data text.data = false →
      ∀ mt ∈ (CouponMatcher.mk' cs cc).find_matches text, mt.coupon_code ≠ pyUpper C) := by
  have hdataC : C.data ≠ [] := by
    intro h
    apply hC
    have hmk : C = String.mk C.data := rfl
    rw [hmk, h]
  have hbridge : standaloneOccB C.data text.data = searchB (pyUpper C).data text.data := by
    rw [standaloneOccB_eq_searchB C.data text.data hdataC hword]
    rw [show (pyUpper C).data = C.data.map Char.toUpper from rfl, searchB_map_toUpper]
  have hkey : pyUpper C ∈ (CouponMatcher.mk' cs cc).patternKeys :=
    (dedupFirst_mem _ _).mpr (mem_coupons_mk' cs cc C hC htrim htracked)
  constructor
  · intro hocc
    rw [hbridge] at hocc
    have htext : text ≠ "" := by
      intro h
      rw [h, show ("" : String).data = [] from rfl, searchB_nil] at hocc
      cases hocc
    rcases List.exists_mem_of_ne_nil _ (matchSpans_ne_nil _ _ hocc) with ⟨sp, hsp⟩
    refine ⟨{ coupon_code := pyUpper C
              start_pos := sp.1
              end_pos := sp.2
              context := extractContext text.data sp.1 sp.2
                (CouponMatcher.mk' cs cc).context_chars }, ?_, rfl⟩
    rw [CouponMatcher.find_matches, if_neg htext]
    apply List.mem_flatMap.mpr
    refine ⟨pyUpper C, hkey, ?_⟩
    apply List.mem_map.mpr
    exact ⟨sp, hsp, rfl⟩
  · intro hocc mt hmt hcode
    rw [CouponMatcher.find_matches] at hmt
    by_cases htext : text = ""
    · rw [if_pos htext] at hmt
      cases hmt
    · rw [if_neg htext] at hmt
      rcases List.mem_flatMap.mp hmt with ⟨coupon, _, hmm⟩
      rcases List.mem_map.mp hmm with ⟨sp, hsp, heq⟩
      rw [← heq] at hcode
      have hcc : coupon = pyUpper C := hcode
      subst hcc
      have hmatch := matchSpans_matches _ _ _ hsp
      have hs : searchB (pyUpper C).data text.data = true := by
        rw [searchB, List.any_eq_true]
        exact ⟨sp.1, hmatch.1, hmatch.2⟩
      rw [hbridge, hs] at hocc
      cases hocc

theorem claim_C1_standalone_word_witness :
    (standaloneOccB ("save10" : String).data ("Use SAVE10 today" : String).data = true →
      ∃ mt ∈ (CouponMatcher.mk' ["save10"] 100).find_matches "Use SAVE10 today",
        mt.coupon_code = pyUpper "save10") ∧
    (standaloneOccB ("save10" : String).data ("Use SAVE10 today" : String).data = false →
      ∀ mt ∈ (CouponMatcher.mk' ["save10"] 100).find_matches "Use SAVE10 today",
        mt.coupon_code ≠ pyUpper "save10") :=
  claim_C1_standalone_word ["save10"] 100 "save10" "Use SAVE10 today" (by decide) (by decide)
    (by decide) (by decide)
